import Mathlib

/-!
Shallow embedding of the vendor price reconciliation engine of `main.py`
(part-pricing spreadsheet updater fed by a browser-extension scraper), and
proofs about it.  Python strings are modelled as Lean `String`s manipulated
through their character lists; Python numbers as `Int`/`ℚ` (`round` and the
float format specifiers are modelled as exact half-even decimal rounding of
rationals); Python exceptions as `Except String`; heterogeneous spreadsheet
and payload values as the `PyVal` sum type.  All definitions are structural
recursions so that concrete runs reduce inside the kernel.
-/

/-- Characters treated as whitespace by Python `str.strip()` / `str.split()`. -/
def isPySpace (c : Char) : Bool :=
  c = ' ' || c = '\t' || c = '\n' || c = '\r' || c = '\x0b' || c = '\x0c'

/-- Python `str.strip()`: drop leading and trailing whitespace. -/
def pyStrip (s : String) : String :=
  String.mk (((s.data.dropWhile isPySpace).reverse.dropWhile isPySpace).reverse)

/-- ASCII lower-casing of one character (Python `str.lower` on the ASCII range). -/
def charLower (c : Char) : Char :=
  if 65 ≤ c.toNat && c.toNat ≤ 90 then Char.ofNat (c.toNat + 32) else c

/-- Python `str.lower()` (ASCII fragment, which is all the source feeds it). -/
def pyLower (s : String) : String :=
  String.mk (s.data.map charLower)

/-- Worker for `pySplitOn`: fuel-indexed scan so the kernel can reduce it.
`cur` holds the current token reversed. -/
def splitGo (sep : List Char) : Nat → List Char → List Char → List (List Char)
  | _, cur, [] => [cur.reverse]
  | 0, cur, l => [cur.reverse ++ l]
  | fuel + 1, cur, c :: rest =>
    if sep.isPrefixOf (c :: rest) then
      cur.reverse :: splitGo sep fuel [] (rest.drop (sep.length - 1))
    else
      splitGo sep fuel (c :: cur) rest

/-- Python `s.split(sep)` for nonempty `sep`: split on every non-overlapping
occurrence, keeping empty tokens. -/
def pySplitOn (s sep : String) : List String :=
  if sep.data.isEmpty then [s]
  else (splitGo sep.data s.data.length [] s.data).map String.mk

/-- Python `needle in haystack` (substring test, nonempty needle). -/
def pyContains (hay needle : String) : Bool :=
  (pySplitOn hay needle).length ≠ 1

/-- Python `s.replace(old, new)`: replace every non-overlapping occurrence. -/
def joinSep (sep : String) : List String → String
  | [] => ""
  | [x] => x
  | x :: xs => x ++ sep ++ joinSep sep xs

/-- Python `s.replace(old, new)` for nonempty `old`. -/
def pyReplace (s old new : String) : String :=
  joinSep new (pySplitOn s old)

/-- Python `s.split(sep, 1)`: split only at the first occurrence. -/
def pySplit1 (s sep : String) : List String :=
  match pySplitOn s sep with
  | [] => [s]
  | a :: rest => if rest.isEmpty then [a] else [a, joinSep sep rest]

/-- Worker for `pySplitWs` (whitespace split, dropping empty tokens). -/
def splitWsGo (cur : List Char) (acc : List String) : List Char → List String
  | [] => if cur.isEmpty then acc else acc ++ [String.mk cur.reverse]
  | c :: rest =>
    if isPySpace c then
      splitWsGo [] (if cur.isEmpty then acc else acc ++ [String.mk cur.reverse]) rest
    else
      splitWsGo (c :: cur) acc rest

/-- Python `s.split()` with no separator: split on whitespace runs. -/
def pySplitWs (s : String) : List String :=
  splitWsGo [] [] s.data

/-- Numeric value of a list of ASCII digit characters (most significant first). -/
def digitsVal (l : List Char) : Nat :=
  l.foldl (fun a c => a * 10 + (c.toNat - 48)) 0

/-- Python `int(s)`: optional sign then a nonempty run of digits, surrounding
whitespace allowed; `none` models the `ValueError`. -/
def pyInt? (s : String) : Option Int :=
  let l := (pyStrip s).data
  match l with
  | '+' :: t => if !t.isEmpty && t.all Char.isDigit then some (digitsVal t) else none
  | '-' :: t => if !t.isEmpty && t.all Char.isDigit then some (-(digitsVal t : Int)) else none
  | t => if !t.isEmpty && t.all Char.isDigit then some (digitsVal t) else none

/-! ### Exact rational numbers as canonical fractions

Python's float arithmetic in the source only ever touches short decimals, so
it is modelled by exact rationals.  Mathlib's `ℚ` does not reduce inside the
kernel (its operations block on `Nat.gcd`'s well-founded recursion), so the
model carries its own fraction type with a fuel-driven Euclidean gcd; every
operation renormalises, making structural equality coincide with value
equality on canonical fractions, and `decide`/`rfl` evaluate everything.
`Frac.toQ` maps the type back to `ℚ` for the statements that quote the
arithmetic formulas of the source. -/

/-- Fuel-driven Euclidean algorithm (reduces inside the kernel). -/
def fgcdGo : Nat → Nat → Nat → Nat
  | 0, a, _ => a
  | fuel + 1, a, b => if b = 0 then a else fgcdGo fuel b (a % b)

/-- Greatest common divisor via `fgcdGo`; proven equal to `Nat.gcd` below. -/
def fgcd (a b : Nat) : Nat := fgcdGo (b + 1) a b

/-- A fraction `num / den`; values produced by the model keep `den` positive
and reduced. -/
structure Frac where
  num : Int
  den : Int
deriving DecidableEq

/-- Move the sign to the numerator. -/
def mkFrac (a b : Int) : Frac := if b < 0 then ⟨-a, -b⟩ else ⟨a, b⟩

/-- Divide out the gcd of numerator and denominator. -/
def Frac.canon (x : Frac) : Frac :=
  let g : Int := (fgcd x.num.natAbs x.den.natAbs : Int)
  if g = 0 ∨ g = 1 then x else ⟨x.num / g, x.den / g⟩

/-- Canonical fraction `a / b`. -/
def fcan (a b : Int) : Frac := Frac.canon (mkFrac a b)

def Frac.ofInt (n : Int) : Frac := ⟨n, 1⟩

def Frac.addF (x y : Frac) : Frac := fcan (x.num * y.den + y.num * x.den) (x.den * y.den)

def Frac.subF (x y : Frac) : Frac := fcan (x.num * y.den - y.num * x.den) (x.den * y.den)

def Frac.mulF (x y : Frac) : Frac := fcan (x.num * y.num) (x.den * y.den)

def Frac.divF (x y : Frac) : Frac := fcan (x.num * y.den) (x.den * y.num)

def Frac.negF (x : Frac) : Frac := ⟨-x.num, x.den⟩

def Frac.absF (x : Frac) : Frac := ⟨(x.num.natAbs : Int), x.den⟩

/-- Value order on fractions with positive denominators. -/
def Frac.leF (x y : Frac) : Bool := decide (x.num * y.den ≤ y.num * x.den)

def Frac.ltF (x y : Frac) : Bool := decide (x.num * y.den < y.num * x.den)

def Frac.isZero (x : Frac) : Bool := decide (x.num = 0)

/-- The rational value of a fraction. -/
def Frac.toQ (x : Frac) : ℚ := (x.num : ℚ) / (x.den : ℚ)

/-- Multiply by a (possibly negative) power of ten. -/
def Frac.mulPow10 (x : Frac) : Int → Frac
  | .ofNat k => fcan (x.num * (10 : Int) ^ k) x.den
  | .negSucc k => fcan x.num (x.den * (10 : Int) ^ (k + 1))

/-- Exponent part of a Python float literal: optional sign then digits. -/
def pyExp? (l : List Char) : Option Int :=
  match l with
  | '+' :: t => if !t.isEmpty && t.all Char.isDigit then some (digitsVal t) else none
  | '-' :: t => if !t.isEmpty && t.all Char.isDigit then some (-(digitsVal t : Int)) else none
  | t => if !t.isEmpty && t.all Char.isDigit then some (digitsVal t) else none

/-- Unsigned core of a Python float literal: `digits [. digits] [e exp]`,
requiring at least one mantissa digit. -/
def pyFloatCore (l : List Char) : Option Frac :=
  let ip := l.takeWhile Char.isDigit
  let r := l.dropWhile Char.isDigit
  match r with
  | [] => if ip.isEmpty then none else some (Frac.ofInt (digitsVal ip))
  | '.' :: t =>
    let fp := t.takeWhile Char.isDigit
    let r2 := t.dropWhile Char.isDigit
    if ip.isEmpty && fp.isEmpty then none
    else
      let base := fcan (digitsVal ip * 10 ^ fp.length + digitsVal fp) ((10 : Int) ^ fp.length)
      match r2 with
      | [] => some base
      | c :: t2 =>
        if c = 'e' || c = 'E' then (pyExp? t2).map (fun e => base.mulPow10 e) else none
  | c :: t2 =>
    if (c = 'e' || c = 'E') && !ip.isEmpty then
      (pyExp? t2).map (fun e => (Frac.ofInt (digitsVal ip)).mulPow10 e)
    else none

/-- Python `float(s)` on finite decimal/scientific literals (the only shapes the
source ever feeds it); `none` models the `ValueError`. -/
def pyFloat? (s : String) : Option Frac :=
  match (pyStrip s).data with
  | '+' :: t => pyFloatCore t
  | '-' :: t => (pyFloatCore t).map Frac.negF
  | l => pyFloatCore l

/-- Round a fraction (positive denominator) to the nearest integer, ties to
even (Python banker's rounding). -/
def roundHalfEven (x : Frac) : Int :=
  let f := Int.fdiv x.num x.den
  let r2 := 2 * (x.num - f * x.den)
  if r2 < x.den then f
  else if x.den < r2 then f + 1
  else if f % 2 = 0 then f else f + 1

/-- Python `round(q, nd)` modelled exactly. -/
def pyRound (x : Frac) (nd : Nat) : Frac :=
  fcan (roundHalfEven (fcan (x.num * (10 : Int) ^ nd) x.den)) ((10 : Int) ^ nd)

/-- Left-pad a string with zeros to length `k`. -/
def padZeros (s : String) (k : Nat) : String :=
  String.mk (List.replicate (k - s.length) '0') ++ s

/-- Python `str(x)` for a float holding an exact short decimal: the shortest
decimal rendering, with `.0` for integral values (`str(5.0) = "5.0"`,
`str(123.45) = "123.45"`). -/
def pyShowFloat (x : Frac) : String :=
  let sign := if x.num < 0 then "-" else ""
  let n := x.num.natAbs
  let d := x.den.natAbs
  match (List.range 31).find? (fun k => 10 ^ k % d = 0) with
  | none => sign ++ toString n ++ "/" ++ toString d
  | some k =>
    let m := n * (10 ^ k / d)
    if k = 0 then sign ++ toString m ++ ".0"
    else sign ++ toString (m / 10 ^ k) ++ "." ++ padZeros (toString (m % 10 ^ k)) k

/-- Python `f"{x:+.1f}"`: explicit sign and one decimal digit, half-even. -/
def fmtPlus1 (x : Frac) : String :=
  let r := roundHalfEven (fcan (x.num * 10) x.den)
  let sign := if x.num < 0 then "-" else "+"
  sign ++ toString (r.natAbs / 10) ++ "." ++ toString (r.natAbs % 10)

/-! ### Heterogeneous Python values

Spreadsheet cells and JSON payload fields are untyped in the source; `PyVal`
covers the shapes that reach the modelled code: strings, ints, floats and
opaque objects (such as the `datetime.now()` written into the date field,
which no modelled operation ever inspects).  `Option PyVal` stands for a
possibly-`None` value or a possibly-missing mapping key.  Python exceptions
are modelled by `Except String`, the payload naming the exception class. -/

inductive PyVal where
  | vs (s : String)
  | vi (n : Int)
  | vf (q : Frac)
  | obj (tag : String)
deriving DecidableEq

/-- Python `str(v)`. -/
def pyShow : PyVal → String
  | .vs s => s
  | .vi n => toString n
  | .vf q => pyShowFloat q
  | .obj tag => tag

/-- Python `str(v)` where `v` may be `None`. -/
def pyShowOpt : Option PyVal → String
  | none => "None"
  | some v => pyShow v

/-- Python truthiness of a possibly-`None` value. -/
def truthy : Option PyVal → Bool
  | none => false
  | some (.vs s) => !s.isEmpty
  | some (.vi n) => decide (n ≠ 0)
  | some (.vf q) => !q.isZero
  | some (.obj _) => true

/-- Decidable equality for `Except`, used to evaluate the model's
exception-carrying results. -/
instance {e a : Type} [DecidableEq e] [DecidableEq a] : DecidableEq (Except e a) := fun x y =>
  match x, y with
  | .ok u, .ok v => if h : u = v then .isTrue (by rw [h]) else .isFalse (by simp [h])
  | .error u, .error v => if h : u = v then .isTrue (by rw [h]) else .isFalse (by simp [h])
  | .ok _, .error _ => .isFalse (by simp)
  | .error _, .ok _ => .isFalse (by simp)

/-! ### Vendor-specific normalisation (`main.py` lines 514-638)

Each `cleanup_*` function mirrors one vendor branch of the normalizer.  The
string methods `.replace`/`.strip`/`in` raise `AttributeError`/`TypeError`
when applied to non-string values, which `Except.error` captures. -/

/-- `main.py` `cleanup_grainger_data`.  The final mfr-number trimming of the
source computes `mfr.split()[-1]` but the result is discarded by the caller
(only price, unit, qty are returned); it is still modelled because
`' ' in mfr` raises `TypeError` on numbers, and the `[-1]` indexing raises
`IndexError` when `mfr` is whitespace containing a space. -/
def cleanup_grainger_data (price unit mfr : PyVal) : Except String (PyVal × PyVal × Int) := do
  let price' ←
    if price = .vs "Not Found" then pure (PyVal.vs "Not Found")
    else match price with
      | .vs p => pure (PyVal.vs (pyStrip (pyReplace p "$" "")))
      | _ => Except.error "AttributeError"
  let u ← match unit with
    | .vs u => pure u
    | _ => Except.error "AttributeError"
  let u := pyStrip (pyReplace u "/" "")
  let (u, qty) :=
    if pyContains u " of " then
      let parts := pySplitOn u " of "
      (pyStrip (parts.headD ""), (((parts.get? 1).map pyStrip).bind pyInt?).getD 1)
    else (u, 1)
  let m ← match mfr with
    | .vs m => pure m
    | _ => Except.error "TypeError"
  if pyContains m " " ∧ (pySplitWs m).isEmpty then Except.error "IndexError"
  else pure (price', PyVal.vs u, qty)

/-- Price-string phase of `main.py` `cleanup_mcmaster_data`: handle
`" per "`/`"each"` markers in the lowered price, possibly resolving the unit
to `pack`/`each` and the pack quantity via digit filtering. -/
def mcmasterPricePhase (p : String) (unit : PyVal) : String × PyVal × Int :=
  if pyContains p "Not Found" then (p, unit, 1)
  else
    let pl := pyLower p
    if pyContains pl " per " then
      let parts := pySplit1 pl "per"
      let price1 := pyStrip (pyReplace (parts.headD "") "$" "")
      let perPart := pyStrip ((parts.get? 1).getD "")
      if pyContains perPart "pack" ∧ pyContains perPart "of" then
        let qparts := pySplit1 perPart "of"
        let qty : Int :=
          if qparts.length > 1 then
            let ds := ((qparts.get? 1).getD "").data.filter Char.isDigit
            if ds.isEmpty then 1 else (digitsVal ds : Int)
          else 1
        (price1, PyVal.vs "pack", qty)
      else if pyContains perPart "each" then (price1, PyVal.vs "each", 1)
      else (price1, unit, 1)
    else if pyContains pl "each" then
      let parts := pySplit1 pl "each"
      (pyStrip (pyReplace (parts.headD "") "$" ""), PyVal.vs "each", 1)
    else (pyStrip (pyReplace p "$" ""), unit, 1)

/-- Unit-field phase of `main.py` `cleanup_mcmaster_data`.  Note: the
`pack`/`of` detection is case-insensitive (`unit.lower()`), but the split is
on the literal lowercase `" of "` and `parts[1]` is indexed with only
`ValueError` guarded, so this raises `IndexError` whenever the detected
tokens are not spelled lowercase with surrounding spaces. -/
def mcmasterUnitPhase (price2 : String) (unit2 : PyVal) (qty2 : Int) :
    Except String (PyVal × PyVal × Int) :=
  match unit2 with
  | .vs u =>
    if ¬ pyContains u "Not Found" ∧ u ≠ "pack" ∧ u ≠ "each" then
      if pyContains (pyLower u) "each" then pure (.vs price2, .vs "each", 1)
      else if pyContains (pyLower u) "pack" ∧ pyContains (pyLower u) "of" then
        let parts := pySplit1 u " of "
        match parts.get? 1 with
        | none => Except.error "IndexError"
        | some x => pure (.vs price2, .vs "pack", (pyInt? (pyStrip x)).getD 1)
      else pure (.vs price2, .vs u, qty2)
    else pure (.vs price2, .vs u, qty2)
  | _ => Except.error "TypeError"

/-- `main.py` `cleanup_mcmaster_data`: the price phase followed by the
unit-field phase (run only when the price phase did not already resolve the
unit to `pack`/`each`, which the phase itself checks). -/
def cleanup_mcmaster_data (price unit : PyVal) : Except String (PyVal × PyVal × Int) := do
  let p ← match price with
    | .vs p => pure p
    | _ => Except.error "TypeError"
  let (price2, unit2, qty2) := mcmasterPricePhase p unit
  mcmasterUnitPhase price2 unit2 qty2

/-- `main.py` `cleanup_festo_data`: strip `$` from price, quantity from the
separate raw field via `int(...)` with `ValueError` defaulting to 1. -/
def cleanup_festo_data (price unit : PyVal) (qtyRaw : Option PyVal) :
    Except String (PyVal × PyVal × Int) := do
  let price' ←
    if price = .vs "Not Found" then pure (PyVal.vs "Not Found")
    else match price with
      | .vs p => pure (PyVal.vs (pyStrip (pyReplace p "$" "")))
      | _ => Except.error "AttributeError"
  let qty : Except String Int :=
    if truthy qtyRaw ∧ qtyRaw ≠ some (.vs "Not Found") then
      match qtyRaw with
      | some (.vs s) => pure ((pyInt? s).getD 1)
      | some (.vi n) => pure n
      | some (.vf q) => pure (Int.tdiv q.num q.den)
      | some (.obj _) => Except.error "TypeError"
      | none => pure 1
    else pure 1
  let qty ← qty
  pure (price', unit, qty)

/-- Unit decision of the zoro scan: substring tests `pk`/`ea`/`pr` in order,
falling back to the incoming unit value. -/
def zUnit (up : String) (unit : PyVal) : PyVal :=
  if pyContains up "pk" then .vs "pk"
  else if pyContains up "ea" then .vs "each"
  else if pyContains up "pr" then .vs "pair"
  else unit

/-- Quantity decision of the zoro scan: for `pk`, `int(unit_part.split()[1])`
with a bare `except` defaulting to 1; `ea` is 1; `pr` is fixed at 2. -/
def zQty (up : String) : Int :=
  if pyContains up "pk" then (((pySplitWs up).get? 1).bind pyInt?).getD 1
  else if pyContains up "ea" then 1
  else if pyContains up "pr" then 2
  else 1

/-- One comma segment of the zoro scan: `part = part.strip().replace('$','')`,
`detail_parts = part.split('/')`; a segment yields a value when it has at
least two `/`-parts and `float(detail_parts[0].strip())` succeeds, carrying
the parsed price and the stripped second part. -/
def zoroSeg? (seg : String) : Option (Frac × String) :=
  let part := pyReplace (pyStrip seg) "$" ""
  match pySplitOn part "/" with
  | a :: b :: _ => (pyFloat? (pyStrip a)).map (fun f => (f, pyStrip b))
  | _ => none

/-- Loop body of `main.py` `cleanup_zoro_data`: scan the comma segments; the
first one with at least two `/`-parts and a float-parsable first part wins
(`continue` on `ValueError`, `break` on success). -/
def zoroLoop (p1 : String) (unit : PyVal) : List String → PyVal × PyVal × Int
  | [] => (.vs p1, unit, 1)
  | seg :: rest =>
    match zoroSeg? seg with
    | none => zoroLoop p1 unit rest
    | some (f, up) => (.vs (pyShowFloat f), zUnit up unit, zQty up)

/-- The pre-scan cleaning of the zoro price string: newlines to spaces, the
`product price:` marker removed, then stripped. -/
def zoroClean (p : String) : String :=
  pyStrip (pyReplace (pyReplace (pyReplace p "\r\n" " ") "\n" " ") "product price:" "")

/-- `main.py` `cleanup_zoro_data`: unless the price contains the sentinel,
clean the string, split on commas and scan. -/
def cleanup_zoro_data (price unit : PyVal) : Except String (PyVal × PyVal × Int) :=
  match price with
  | .vs p =>
    if pyContains p "Not Found" then .ok (.vs p, unit, 1)
    else
      let p1 := zoroClean p
      .ok (zoroLoop p1 unit (pySplitOn p1 ","))
  | _ => .error "TypeError"

/-! ### Change detection and history (`main.py` lines 640-678) -/

/-- Result of `calculate_percentage_change`: a finite float or `float('inf')`. -/
inductive PctRes where
  | pinf
  | val (q : Frac)
deriving DecidableEq

/-- Inner `clean_price` of `calculate_percentage_change`: `None`/empty/sentinel
give `None`; numbers pass through `float()`; other values are stringified and
reduced to their digit-and-dot characters before `float()` conversion, whose
`ValueError` (caught further out) is the `Except.error` case. -/
def cleanDigitsDots (s : String) : Except String (Option Frac) :=
  let cleaned := s.data.filter (fun c => c.isDigit || c = '.')
  if cleaned.isEmpty then .ok none
  else match pyFloat? (String.mk cleaned) with
    | some q => .ok (some q)
    | none => .error "ValueError"

def clean_price (v : Option PyVal) : Except String (Option Frac) :=
  match v with
  | none => .ok none
  | some (.vi n) => .ok (some (Frac.ofInt n))
  | some (.vf q) => .ok (some q)
  | some (.vs s) =>
    if s = "" ∨ s = "Not Found" then .ok none
    else cleanDigitsDots s
  | some (.obj t) => cleanDigitsDots t

/-- `main.py` `calculate_percentage_change`: `None` if either side is
uncleanable or raises; `inf`/`0.0` when the old price is zero; otherwise
`round(((new - old) / old) * 100, 2)`. -/
def calculate_percentage_change (oldPrice newPrice : Option PyVal) : Option PctRes :=
  match clean_price oldPrice, clean_price newPrice with
  | .ok (some a), .ok (some b) =>
    if a.isZero then (if !b.isZero then some .pinf else some (.val (Frac.ofInt 0)))
    else some (.val (pyRound (((b.subF a).divF a).mulF (Frac.ofInt 100)) 2))
  | _, _ => none

/-- The canonical 15-field part record, one field per spreadsheet column
(`FIELDS` in `main.py`); indices in source comments refer to the Python list. -/
structure PartRecord where
  aci : Option PyVal          -- [0]  ACI #
  mfrPart : Option PyVal      -- [1]  MFR Part #
  mfr : Option PyVal          -- [2]  MFR
  description : Option PyVal  -- [3]  Description
  qty : Option PyVal          -- [4]  QTY
  per : Option PyVal          -- [5]  Per
  vendor : Option PyVal       -- [6]  Vendor
  vendorPart : Option PyVal   -- [7]  Vendor Part #
  legacy : Option PyVal       -- [8]  Legacy
  unitPrice : Option PyVal    -- [9]  Unit Price
  date : Option PyVal         -- [10] Date
  changePct : Option PyVal    -- [11] Change %
  lastPrice : Option PyVal    -- [12] Last Updated Price
  lastDate : Option PyVal     -- [13] Last Updated Date
  history : Option PyVal      -- [14] Price History
deriving DecidableEq

/-- The single appended ledger entry text `Date: <d> Price: <p>` built from the
previous (pre-update) record. -/
def historyEntryText (cur : PartRecord) : String :=
  "Date: " ++ pyShowOpt cur.date ++ " Price: " ++ pyShowOpt cur.unitPrice

/-- `main.py` `update_price_history`: treat a `None` ledger as empty, append
one comma-joined `Date:`/`Price:` entry built from the previous record, and
roll the last-updated price/date forward.  String concatenation onto a
non-string ledger cell raises `TypeError`. -/
def update_price_history (entry cur : PartRecord) : Except String PartRecord :=
  match cur.history.getD (.vs "") with
  | .vs hs =>
    let newh := if hs ≠ "" then hs ++ ", " ++ historyEntryText cur else historyEntryText cur
    .ok { entry with
          history := some (.vs newh),
          lastPrice := cur.unitPrice,
          lastDate := cur.date }
  | _ => .error "TypeError"

/-! ### Record-store helpers (`main.py` lines 356-475, 683-724) -/

/-- `main.py` `sanitize_string`: collapse non-breaking spaces, drop the
left-to-right mark and trim — strings only, all else passes through. -/
def sanitize_string (v : PyVal) : PyVal :=
  match v with
  | .vs s => .vs (pyStrip (pyReplace (pyReplace s "\u00A0" " ") "\u200E" ""))
  | w => w

/-- Python `str.isdigit()` on the ASCII range: nonempty and all digits. -/
def pyIsDigits (s : String) : Bool :=
  !s.isEmpty && s.data.all Char.isDigit

/-- `main.py` `prepare_aci_for_excel`: digit-only strings become ints,
whole-number floats become ints, everything else is preserved unchanged. -/
def prepare_aci_for_excel (v : Option PyVal) : Option PyVal :=
  match v with
  | none => none
  | some (.vi n) => some (.vi n)
  | some (.vf q) => if q.den = 1 then some (.vi q.num) else some (.vf q)
  | some w =>
    let s := pyStrip (pyShow w)
    if pyIsDigits s then some (.vi (digitsVal s.data)) else some w

/-- The key comparison of `main.py` `process_excel`: trimmed string rendering
of the sanitised stored cell against the trimmed search string; `None` cells
never match. -/
def cellMatches (cell : Option PyVal) (search : String) : Bool :=
  match cell with
  | none => false
  | some v => pyStrip (pyShow (sanitize_string v)) = pyStrip search

/-- The scan of `main.py` `process_excel` restricted to what the claims need:
the index of the first row whose key cell matches (row order, first match
wins); reading the remaining 14 cells is not modelled. -/
def findByKey (keys : List (Option PyVal)) (search : String) : Option Nat :=
  keys.findIdx? (fun cell => cellMatches cell search)

/-! ### Batch validation and classification (`main.py` lines 1361-1619) -/

/-- `main.py` `is_vendor_auto`: `vendor.lower()` membership in the five
auto-scrape vendors; raises on `None`/numbers. -/
def is_vendor_auto (vendor : Option PyVal) : Except String Bool :=
  match vendor with
  | some (.vs s) =>
    .ok (["grainger", "mcmaster-carr", "mcmaster", "zoro", "festo"].contains (pyLower s))
  | _ => .error "AttributeError"

/-- Output of `parse_vendor_data`: the canonical scrape result dict. -/
structure Parsed where
  description : PyVal
  price : PyVal
  unit : PyVal
  qty : Int
  mfr_number : PyVal
  brand : PyVal
deriving DecidableEq

/-- An incoming scrape payload: an untrusted JSON mapping; `none` fields are
missing keys.  The whole payload being `none` models a falsy `raw_data`
(absent or empty).  `tabId` is kept apart because the only operation applied
to it is set insertion, which needs truthiness and hashability. -/
inductive TabVal where
  | tnum (n : Int)
  | tstr (s : String)
  | tarr
deriving DecidableEq

structure RawData where
  description : Option PyVal
  price : Option PyVal
  unit : Option PyVal
  mfrNumber : Option PyVal
  brand : Option PyVal
  qty : Option PyVal
  tabId : Option TabVal
deriving DecidableEq

/-- `main.py` `parse_vendor_data`: `None` for a falsy payload, otherwise fill
missing fields with the sentinel and dispatch on the lowered, stripped vendor
key; unknown vendors pass the price through with quantity 1. -/
def parse_vendor_data (raw : Option RawData) (vendor_name : String) :
    Except String (Option Parsed) :=
  match raw with
  | none => .ok none
  | some r =>
    let vendor_key := pyStrip (pyLower vendor_name)
    let description := r.description.getD (.vs "Not Found")
    let price_raw := r.price.getD (.vs "Not Found")
    let unit := r.unit.getD (.vs "Not Found")
    let mfr_number := r.mfrNumber.getD (.vs "Not Found")
    let brand := r.brand.getD (.vs "Not Found")
    do
      let (price, unit, qty) ←
        if vendor_key = "grainger" then cleanup_grainger_data price_raw unit mfr_number
        else if vendor_key = "mcmaster" ∨ vendor_key = "mcmaster-carr" then
          cleanup_mcmaster_data price_raw unit
        else if vendor_key = "festo" then cleanup_festo_data price_raw unit r.qty
        else if vendor_key = "zoro" then cleanup_zoro_data price_raw unit
        else pure (price_raw, unit, 1)
      .ok (some ⟨description, price, unit, qty, mfr_number, brand⟩)

/-- `current_part = str(current_data[1]).strip() if current_data[1] else ""`. -/
def batchCurrentPart (cur : PartRecord) : String :=
  if truthy cur.mfrPart then pyStrip (pyShowOpt cur.mfrPart) else ""

/-- `scraped_part = str(scraped_data.get('mfr_number', '')).strip()`. -/
def batchScrapedPart (scraped : Parsed) : String :=
  pyStrip (pyShow scraped.mfr_number)

/-- `current_unit = str(current_data[5]).strip().lower() if current_data[5] else ""`. -/
def batchCurrentUnit (cur : PartRecord) : String :=
  if truthy cur.per then pyLower (pyStrip (pyShowOpt cur.per)) else ""

/-- `scraped_unit = str(scraped_data.get('unit', '')).strip().lower()`. -/
def batchScrapedUnit (scraped : Parsed) : String :=
  pyLower (pyStrip (pyShow scraped.unit))

/-- `main.py` `validate_batch_match`: part numbers must agree (trimmed,
case-insensitive) unless the vendor is McMaster-family, the stored part is
falsy, or the scraped one is the sentinel; units must agree (trimmed,
lowered) unless the stored unit is falsy or the scraped one is `not found`. -/
def validate_batch_match (cur : PartRecord) (scraped : Parsed) (vendor_name : String) :
    Bool × String :=
  let vendor_key := pyStrip (pyLower vendor_name)
  let partFail : Bool :=
    if vendor_key ≠ "mcmaster" ∧ vendor_key ≠ "mcmaster-carr" then
      decide (batchCurrentPart cur ≠ "" ∧ batchScrapedPart scraped ≠ "Not Found" ∧
        pyLower (batchCurrentPart cur) ≠ pyLower (batchScrapedPart scraped))
    else false
  if partFail then (false, "Part number mismatch")
  else if batchCurrentUnit cur ≠ "" ∧ batchScrapedUnit scraped ≠ "not found" ∧
      batchCurrentUnit cur ≠ batchScrapedUnit scraped then
    (false, "Unit mismatch")
  else (true, "Match")

/-! ### Capture queue (`main.py` lines 78, 149-166)

`DATA_QUEUE = queue.Queue(maxsize=50)`; the `/scrape` handler does a
non-blocking put and, on `queue.Full`, drops the single oldest entry before
re-putting.  The queue is a list with the oldest entry at the head. -/

/-- Queue bound (`maxsize=50`). -/
def QUEUE_MAXSIZE : Nat := 50

/-- `main.py` `receive_scrape`, enqueue step: put, evicting the oldest entry
when the queue is at capacity. -/
def receive_scrape {α : Type} (q : List α) (payload : α) : List α :=
  if q.length < QUEUE_MAXSIZE then q ++ [payload]
  else q.drop 1 ++ [payload]

/-! ### Batch update worker (`main.py` lines 1484-1619)

`batch_update_worker` drives one externally-observable step per ACI key: an
Excel lookup, a browser open, a wait on the capture queue and a save.  Those
effects are supplied by an `ItemEnv` oracle; everything between them is the
code itself.  A bucket entry mirrors one element appended to the `results`
dict; the `err` constructor covers both recorded error tuples and the
`except Exception` handler appending `(aci, str(e))`.  Writes handed to
`save_to_excel` are collected as `(row, record)` pairs. -/

inductive BucketEntry where
  | updated (aci msg : String)
  | skipped (aci reason : String)
  | err (aci reason : String)
  | notFound (aci : String)
deriving DecidableEq

/-- Outcome of the per-item `process_excel` lookup. -/
inductive LookupRes where
  | notFound
  | excelError
  | found (cur : PartRecord) (row : Nat)
deriving DecidableEq

/-- External effects for one batch item: the lookup result, whether the
browser page opened, the scraped payload (`none` for a falsy payload or the
15-second timeout) and whether `save_to_excel` succeeded. -/
structure ItemEnv where
  lookup : LookupRes
  openOk : Bool
  scrape : Option RawData
  saveOk : Bool

/-- `str(percent_change)` as used in the skip reason. -/
def pcShow : Option PctRes → String
  | none => "None"
  | some .pinf => "inf"
  | some (.val q) => pyShowFloat q

/-- The skip reason `f"Price change {pc}% exceeds ±15%"`. -/
def pcReason (pc : Option PctRes) : String :=
  "Price change " ++ pcShow pc ++ "% exceeds ±15%"

/-- `if tab_id: TABS_TO_CLOSE.add(tab_id)` after a bucket entry was appended:
adding an unhashable (list/dict-valued) truthy `tabId` raises `TypeError`,
which the surrounding `except Exception` records as a second entry for the
same key. -/
def tabCloseEvents (t : Option TabVal) (aci : String) : List BucketEntry :=
  match t with
  | some .tarr => [.err aci "TypeError"]
  | _ => []

/-- `|pc| > 15`-style gate: `percent_change is None or abs(percent_change) > 15`. -/
def pcOutOfRange : Option PctRes → Bool
  | none => true
  | some .pinf => true
  | some (.val v) => (Frac.ofInt 15).ltF v.absF

/-- Tail of the loop body once the item has passed lookup, vendor, browser,
scrape, validation and price-sentinel checks: the ±15% gate, the conditional
ledger append, the `save_to_excel` call and the final bucket entry. -/
def commitPhase (env : ItemEnv) (aci : String) (cur : PartRecord) (row : Nat)
    (raw : RawData) (parsed : Parsed) :
    BucketEntry × List BucketEntry × List (Nat × PartRecord) :=
  let pc := calculate_percentage_change cur.unitPrice (some parsed.price)
  match pc with
  | some (.val v) =>
    if (Frac.ofInt 15).ltF v.absF then
      (.skipped aci (pcReason pc), tabCloseEvents raw.tabId aci, [])
    else
      let entry0 := { cur with
                      unitPrice := some parsed.price,
                      date := some (.obj "datetime.now()"),
                      changePct := some (.vf v) }
      match (if !v.isZero ∧ (Frac.ofInt 1).leF v.absF then
               update_price_history entry0 cur
             else .ok entry0) with
      | .error e => (.err aci e, [], [])
      | .ok entry =>
        if env.saveOk then
          (.updated aci (pyShowOpt cur.unitPrice ++ " → " ++ pyShow parsed.price
              ++ " (" ++ fmtPlus1 v ++ "%)"),
           tabCloseEvents raw.tabId aci, [(row, entry)])
        else (.err aci "Failed to save", tabCloseEvents raw.tabId aci, [(row, entry)])
  | _ => (.skipped aci (pcReason pc), tabCloseEvents raw.tabId aci, [])

/-- One iteration of the `for aci in aci_list` loop of `batch_update_worker`:
the bucket entry appended first, any further entries recorded by the
`except` handler after it (tab-close `TypeError`), and the write handed to
`save_to_excel`. -/
def processItem (env : ItemEnv) (aci : String) :
    BucketEntry × List BucketEntry × List (Nat × PartRecord) :=
  match env.lookup with
  | .notFound => (.notFound aci, [], [])
  | .excelError => (.err aci "Excel error", [], [])
  | .found cur row =>
    match cur.vendor with
    | some (.vs vstr) =>
      match is_vendor_auto cur.vendor with
      | .error e => (.err aci e, [], [])
      | .ok autoV =>
      if !autoV then
        (.skipped aci ("Manual vendor: " ++ pyShowOpt cur.vendor), [], [])
      else
        let vendor_key := pyLower (pyStrip vstr)
        if pyContains aci "-" ∧ (vendor_key = "mcmaster" ∨ vendor_key = "mcmaster-carr") then
          (.skipped aci "Hyphenated ACI - McMaster requires manual update", [], [])
        else if !env.openOk then (.err aci "Failed to open browser", [], [])
        else match env.scrape with
        | none => (.err aci "Scraping timeout", [], [])
        | some raw =>
          let tabId := raw.tabId
          match parse_vendor_data (some raw) vstr with
          | .error e => (.err aci e, [], [])
          | .ok none => (.err aci "Failed to parse data", tabCloseEvents tabId aci, [])
          | .ok (some parsed) =>
            let vres := validate_batch_match cur parsed vstr
            if !vres.1 then (.skipped aci vres.2, tabCloseEvents tabId aci, [])
            else if parsed.price = .vs "Not Found" then
              (.skipped aci "Price not found", tabCloseEvents tabId aci, [])
            else
              commitPhase env aci cur row raw parsed
    | _ => (.err aci "AttributeError", [], [])

/-- All bucket entries recorded for one item, in order. -/
def itemEvents (env : ItemEnv) (aci : String) : List BucketEntry :=
  (processItem env aci).1 :: (processItem env aci).2.1

/-- `main.py` `batch_update_worker` over a list of keys, each paired with its
external effects: the concatenated bucket entries and attempted writes. -/
def batch_update_worker (items : List (String × ItemEnv)) :
    List BucketEntry × List (Nat × PartRecord) :=
  items.foldl
    (fun acc it =>
      (acc.1 ++ itemEvents it.2 it.1, acc.2 ++ (processItem it.2 it.1).2.2))
    ([], [])

/-! ### Auxiliary definitions for the statements -/

/-- The specification's reading of the zoro scan: the first comma segment with
at least two `/`-separated parts, regardless of whether its first part parses
as a float. -/
def zoroSpecFirstSeg (p : String) : Option String :=
  (pySplitOn (zoroClean p) ",").find?
    (fun seg => decide (2 ≤ (pySplitOn (pyReplace (pyStrip seg) "$" "") "/").length))

/-- The specification's enumeration of inputs on which `percent_change` is
null: null, the empty string, the sentinel, or a string retaining no digit
and no decimal point. -/
def cleansToNothingSpec : Option PyVal → Bool
  | none => true
  | some (.vs s) =>
    s = "" || s = "Not Found" || (s.data.filter (fun c => c.isDigit || c = '.')).isEmpty
  | some _ => false

/-- Half-even integer rounding over `ℚ` (reference definition for the bridge
lemmas). -/
def qRoundHalfEven (q : ℚ) : ℤ :=
  if q - ⌊q⌋ < 1 / 2 then ⌊q⌋
  else if 1 / 2 < q - ⌊q⌋ then ⌊q⌋ + 1
  else if (⌊q⌋ : ℤ) % 2 = 0 then ⌊q⌋ else ⌊q⌋ + 1

/-- Python `round(q, nd)` over `ℚ` (reference definition). -/
def qRound (q : ℚ) (nd : Nat) : ℚ :=
  (qRoundHalfEven (q * (10 : ℚ) ^ nd) : ℚ) / (10 : ℚ) ^ nd

/-- The ledger text produced by one `update_price_history` call when the
prior ledger was null or the text `h0`. -/
def ledgerAfter (cur : PartRecord) : String :=
  (match cur.history with
   | some (.vs h) => if h ≠ "" then h ++ ", " else ""
   | _ => "") ++ historyEntryText cur

/-- A payload field that is a missing key or a string. -/
def strOrNone (v : Option PyVal) : Prop :=
  v = none ∨ ∃ s, v = some (.vs s)

/-- Safety condition for the Grainger mfr-number dead code: the field must not
be space-containing whitespace (whose `split()[-1]` raises `IndexError`). -/
def graingerSafe (r : RawData) : Prop :=
  ∀ m, r.mfrNumber.getD (.vs "Not Found") = .vs m →
    ¬(pyContains m " " = true ∧ (pySplitWs m).isEmpty = true)

/-- Safety condition for the McMaster unit branch: whenever `pack` and `of`
occur case-insensitively in the unit field, the literal lowercase `" of "`
must occur too (else `parts[1]` raises `IndexError`). -/
def mcmasterSafe (r : RawData) : Prop :=
  ∀ u, r.unit.getD (.vs "Not Found") = .vs u →
    ¬(pyContains (pyLower u) "pack" = true ∧ pyContains (pyLower u) "of" = true ∧
      pyContains u " of " = false)

/-- Safety condition for the Festo quantity field: `int(...)` on an opaque
object raises. -/
def festoQtySafe (r : RawData) : Prop :=
  ∀ t, r.qty ≠ some (.obj t)

/-- An item environment whose scraped `tabId` (if any) is hashable, so the
`TABS_TO_CLOSE.add` bookkeeping cannot raise. -/
def tabSafe (env : ItemEnv) : Prop :=
  ∀ raw, env.scrape = some raw → raw.tabId ≠ some .tarr

def BucketEntry.isUpdated : BucketEntry → Bool
  | .updated _ _ => true
  | _ => false

def BucketEntry.isSkipped : BucketEntry → Bool
  | .skipped _ _ => true
  | _ => false

def BucketEntry.isErr : BucketEntry → Bool
  | .err _ _ => true
  | _ => false

def BucketEntry.isNotFound : BucketEntry → Bool
  | .notFound _ => true
  | _ => false

/-- The four result buckets of a batch run, as in the `results` dict. -/
def bucketTotals (events : List BucketEntry) : Nat :=
  (events.filter BucketEntry.isUpdated).length + (events.filter BucketEntry.isSkipped).length +
  (events.filter BucketEntry.isErr).length + (events.filter BucketEntry.isNotFound).length

/-! ### Concrete fixtures for counterexamples and witnesses -/

/-- A record with every field null. -/
def blankRec : PartRecord :=
  ⟨none, none, none, none, none, none, none, none, none, none, none, none, none, none, none⟩

/-- A found Grainger record whose price-history cell holds a *number*. -/
def cexHistCur : PartRecord :=
  { blankRec with
    vendor := some (.vs "grainger")
    unitPrice := some (.vs "100")
    history := some (.vi 3) }

/-- A scrape payload with price `$110.00` and a hashable tab id. -/
def cexHistRaw : RawData :=
  ⟨none, some (.vs "$110.00"), none, none, none, none, some (.tnum 7)⟩

/-- Environment for the numeric-history counterexample: record found at row 4,
browser opens, scrape arrives, save would succeed. -/
def cexHistEnv : ItemEnv := ⟨.found cexHistCur 4, true, some cexHistRaw, true⟩

/-- A found Grainger record with no stored part/unit/price. -/
def cexTabCur : PartRecord := { blankRec with vendor := some (.vs "grainger") }

/-- A payload carrying only an unhashable (list-valued) `tabId`. -/
def cexTabRaw : RawData := ⟨none, none, none, none, none, none, some .tarr⟩

def cexTabEnv : ItemEnv := ⟨.found cexTabCur 2, true, some cexTabRaw, true⟩

/-- A well-formed record for the happy-path witnesses: Grainger vendor, stored
price 100, a textual ledger. -/
def witCur : PartRecord :=
  { blankRec with
    vendor := some (.vs "grainger")
    unitPrice := some (.vs "100")
    date := some (.vs "01/02/2024")
    history := some (.vs "Date: 12/01/2023 Price: 90") }

def witEnv : ItemEnv := ⟨.found witCur 4, true, some cexHistRaw, true⟩
/-! ### Lemmas: the fraction type computes rational arithmetic -/

lemma fgcdGo_eq (fuel : Nat) : ∀ a b : Nat, b ≤ fuel → fgcdGo fuel a b = Nat.gcd a b := by
  induction fuel with
  | zero =>
    intro a b hb
    interval_cases b
    simp [fgcdGo]
  | succ f ih =>
    intro a b hb
    by_cases h0 : b = 0
    · simp [fgcdGo, h0]
    · have hlt : a % b < b := Nat.mod_lt _ (Nat.pos_of_ne_zero h0)
      have : a % b ≤ f := by omega
      calc fgcdGo (f + 1) a b = fgcdGo f b (a % b) := by simp [fgcdGo, h0]
        _ = Nat.gcd b (a % b) := ih _ _ this
        _ = Nat.gcd (a % b) b := Nat.gcd_comm _ _
        _ = Nat.gcd b a := (Nat.gcd_rec b a).symm
        _ = Nat.gcd a b := Nat.gcd_comm _ _

lemma fgcd_eq (a b : Nat) : fgcd a b = Nat.gcd a b :=
  fgcdGo_eq (b + 1) a b (Nat.le_succ b)

lemma canon_spec (x : Frac) :
    x.canon.toQ = x.toQ ∧ (0 < x.den → 0 < x.canon.den) := by
  unfold Frac.canon
  set g : Int := (fgcd x.num.natAbs x.den.natAbs : Int) with hg
  by_cases htriv : g = 0 ∨ g = 1
  · simp [htriv]
  · push_neg at htriv
    simp only [htriv, if_false, or_self, if_neg, not_false_iff]
    have hgnat : fgcd x.num.natAbs x.den.natAbs = Nat.gcd x.num.natAbs x.den.natAbs := fgcd_eq _ _
    have hdvd1 : g ∣ x.num := by
      rw [hg, hgnat]
      exact Int.dvd_natAbs.mp (Int.natCast_dvd_natCast.mpr (Nat.gcd_dvd_left _ _))
    have hdvd2 : g ∣ x.den := by
      rw [hg, hgnat]
      exact Int.dvd_natAbs.mp (Int.natCast_dvd_natCast.mpr (Nat.gcd_dvd_right _ _))
    obtain ⟨n2, hn2⟩ := hdvd1
    obtain ⟨d2, hd2⟩ := hdvd2
    have hgz : g ≠ 0 := htriv.1
    have hnum : x.num / g = n2 := by rw [hn2]; exact Int.mul_ediv_cancel_left _ hgz
    have hden : x.den / g = d2 := by rw [hd2]; exact Int.mul_ediv_cancel_left _ hgz
    constructor
    · show Frac.toQ ⟨x.num / g, x.den / g⟩ = x.toQ
      unfold Frac.toQ
      rw [hnum, hden, hn2, hd2]
      push_cast
      have hgq : (g : ℚ) ≠ 0 := Int.cast_ne_zero.mpr hgz
      rw [mul_div_mul_left _ _ hgq]
    · intro hpos
      show 0 < x.den / g
      rw [hden]
      have hgpos : 0 < g := by
        rcases lt_trichotomy g 0 with h | h | h
        · exfalso
          have : (0:Int) ≤ g := by rw [hg]; positivity
          omega
        · exact absurd h hgz
        · exact h
      nlinarith [hd2, hpos]

lemma mkFrac_spec (a b : Int) (hb : b ≠ 0) :
    (mkFrac a b).toQ = (a : ℚ) / b ∧ 0 < (mkFrac a b).den := by
  by_cases h : b < 0
  · simp only [mkFrac, if_pos h, Frac.toQ]
    constructor
    · push_cast
      exact neg_div_neg_eq _ _
    · omega
  · simp only [mkFrac, if_neg h, Frac.toQ]
    exact ⟨trivial, by omega⟩

lemma fcan_spec (a b : Int) (hb : b ≠ 0) :
    (fcan a b).toQ = (a : ℚ) / b ∧ 0 < (fcan a b).den := by
  obtain ⟨h1, h2⟩ := mkFrac_spec a b hb
  obtain ⟨h3, h4⟩ := canon_spec (mkFrac a b)
  exact ⟨by rw [fcan, h3, h1], by exact h4 h2⟩

lemma ofInt_toQ (n : Int) : (Frac.ofInt n).toQ = (n : ℚ) := by
  simp [Frac.ofInt, Frac.toQ]

lemma ofInt_den (n : Int) : (Frac.ofInt n).den = 1 := rfl

lemma isZero_iff (x : Frac) (hd : x.den ≠ 0) : x.isZero = true ↔ x.toQ = 0 := by
  have hdq : (x.den : ℚ) ≠ 0 := Int.cast_ne_zero.mpr hd
  simp [Frac.isZero, Frac.toQ, div_eq_zero_iff, hdq]

lemma addF_spec (x y : Frac) (hx : x.den ≠ 0) (hy : y.den ≠ 0) :
    (x.addF y).toQ = x.toQ + y.toQ ∧ 0 < (x.addF y).den := by
  have hb : x.den * y.den ≠ 0 := mul_ne_zero hx hy
  obtain ⟨h1, h2⟩ := fcan_spec (x.num * y.den + y.num * x.den) (x.den * y.den) hb
  refine ⟨?_, h2⟩
  rw [Frac.addF, h1, Frac.toQ, Frac.toQ]
  have hxq : (x.den : ℚ) ≠ 0 := Int.cast_ne_zero.mpr hx
  have hyq : (y.den : ℚ) ≠ 0 := Int.cast_ne_zero.mpr hy
  push_cast
  field_simp
  try ring

lemma subF_spec (x y : Frac) (hx : x.den ≠ 0) (hy : y.den ≠ 0) :
    (x.subF y).toQ = x.toQ - y.toQ ∧ 0 < (x.subF y).den := by
  have hb : x.den * y.den ≠ 0 := mul_ne_zero hx hy
  obtain ⟨h1, h2⟩ := fcan_spec (x.num * y.den - y.num * x.den) (x.den * y.den) hb
  refine ⟨?_, h2⟩
  rw [Frac.subF, h1, Frac.toQ, Frac.toQ]
  have hxq : (x.den : ℚ) ≠ 0 := Int.cast_ne_zero.mpr hx
  have hyq : (y.den : ℚ) ≠ 0 := Int.cast_ne_zero.mpr hy
  push_cast
  field_simp
  try ring

lemma mulF_spec (x y : Frac) (hx : x.den ≠ 0) (hy : y.den ≠ 0) :
    (x.mulF y).toQ = x.toQ * y.toQ ∧ 0 < (x.mulF y).den := by
  have hb : x.den * y.den ≠ 0 := mul_ne_zero hx hy
  obtain ⟨h1, h2⟩ := fcan_spec (x.num * y.num) (x.den * y.den) hb
  refine ⟨?_, h2⟩
  rw [Frac.mulF, h1, Frac.toQ, Frac.toQ]
  have hxq : (x.den : ℚ) ≠ 0 := Int.cast_ne_zero.mpr hx
  have hyq : (y.den : ℚ) ≠ 0 := Int.cast_ne_zero.mpr hy
  push_cast
  field_simp
  try ring

lemma divF_spec (x y : Frac) (hx : x.den ≠ 0) (hy : y.den ≠ 0) (hy0 : y.num ≠ 0) :
    (x.divF y).toQ = x.toQ / y.toQ ∧ 0 < (x.divF y).den := by
  have hb : x.den * y.num ≠ 0 := mul_ne_zero hx hy0
  obtain ⟨h1, h2⟩ := fcan_spec (x.num * y.den) (x.den * y.num) hb
  refine ⟨?_, h2⟩
  rw [Frac.divF, h1, Frac.toQ, Frac.toQ]
  have hxq : (x.den : ℚ) ≠ 0 := Int.cast_ne_zero.mpr hx
  have hyq : (y.den : ℚ) ≠ 0 := Int.cast_ne_zero.mpr hy
  have hy0q : (y.num : ℚ) ≠ 0 := Int.cast_ne_zero.mpr hy0
  push_cast
  field_simp
  try ring

lemma fdiv_eq_floor (a b : Int) (hb : 0 < b) : Int.fdiv a b = ⌊(a : ℚ) / (b : ℚ)⌋ := by
  have h1 : Int.fdiv a b = a / b := Int.fdiv_eq_ediv a (le_of_lt hb)
  have h2 : b = (b.toNat : Int) := (Int.toNat_of_nonneg (le_of_lt hb)).symm
  rw [h1, h2]
  exact (Rat.floor_intCast_div_natCast a b.toNat).symm

lemma roundHalfEven_eq (x : Frac) (hd : 0 < x.den) :
    roundHalfEven x = qRoundHalfEven x.toQ := by
  have hdq : (0 : ℚ) < (x.den : ℚ) := by exact_mod_cast hd
  have hf : Int.fdiv x.num x.den = ⌊x.toQ⌋ := fdiv_eq_floor x.num x.den hd
  have hsub : x.toQ - (⌊x.toQ⌋ : ℚ) = ((x.num - ⌊x.toQ⌋ * x.den : Int) : ℚ) / (x.den : ℚ) := by
    rw [Frac.toQ]
    push_cast
    field_simp
    try ring
  set m : Int := x.num - ⌊x.toQ⌋ * x.den with hm
  have h1 : (2 * m < x.den) ↔ (x.toQ - (⌊x.toQ⌋ : ℚ) < 1 / 2) := by
    rw [hsub, div_lt_iff₀ hdq]
    constructor
    · intro h
      have h2 : ((2 * m : Int) : ℚ) < ((x.den : Int) : ℚ) := by exact_mod_cast h
      push_cast at h2
      linarith
    · intro h
      have h2 : ((2 * m : Int) : ℚ) < ((x.den : Int) : ℚ) := by push_cast; linarith
      exact_mod_cast h2
  have h2 : (x.den < 2 * m) ↔ ((1 : ℚ) / 2 < x.toQ - (⌊x.toQ⌋ : ℚ)) := by
    rw [hsub, lt_div_iff₀ hdq]
    constructor
    · intro h
      have h3 : ((x.den : Int) : ℚ) < ((2 * m : Int) : ℚ) := by exact_mod_cast h
      push_cast at h3
      linarith
    · intro h
      have h3 : ((x.den : Int) : ℚ) < ((2 * m : Int) : ℚ) := by push_cast; linarith
      exact_mod_cast h3
  unfold roundHalfEven qRoundHalfEven
  rw [hf]
  rw [if_congr h1 rfl (if_congr h2 rfl rfl)]

lemma pyRound_spec (x : Frac) (nd : Nat) (hd : 0 < x.den) :
    (pyRound x nd).toQ = qRound x.toQ nd ∧ 0 < (pyRound x nd).den := by
  have hdne : x.den ≠ 0 := by omega
  have hpow : ((10 : Int) ^ nd) ≠ 0 := by positivity
  obtain ⟨hi1, hi2⟩ := fcan_spec (x.num * (10 : Int) ^ nd) x.den hdne
  have hinner : (fcan (x.num * (10 : Int) ^ nd) x.den).toQ = x.toQ * (10 : ℚ) ^ nd := by
    rw [hi1, Frac.toQ]
    push_cast
    field_simp
    try ring
  obtain ⟨ho1, ho2⟩ := fcan_spec (roundHalfEven (fcan (x.num * (10 : Int) ^ nd) x.den)) ((10 : Int) ^ nd) hpow
  refine ⟨?_, ho2⟩
  rw [pyRound, ho1, roundHalfEven_eq _ hi2, hinner, qRound]
  push_cast
  try ring_nf

/-! ### Lemmas: the cleaned-string float conversion -/

lemma dropWhile_head_not {α : Type} (p : α → Bool) :
    ∀ (l : List α) (x : α) (xs : List α), l.dropWhile p = x :: xs → p x = false := by
  intro l
  induction l with
  | nil => intro x xs h; simp [List.dropWhile] at h
  | cons a t ih =>
    intro x xs h
    rw [List.dropWhile_cons] at h
    by_cases hp : p a
    · rw [if_pos hp] at h
      exact ih _ _ h
    · rw [if_neg hp] at h
      cases h
      simpa using hp

lemma dropWhile_eq_self_of {α : Type} (p : α → Bool) (l : List α)
    (h : ∀ c ∈ l, p c = false) : l.dropWhile p = l := by
  cases l with
  | nil => rfl
  | cons a t =>
    rw [List.dropWhile_cons, if_neg]
    simp [h a (List.mem_cons_self a t)]

lemma stringMk_data (s : String) : String.mk s.data = s := rfl

lemma pyStrip_eq_self (s : String) (h : ∀ c ∈ s.data, isPySpace c = false) :
    pyStrip s = s := by
  unfold pyStrip
  rw [dropWhile_eq_self_of _ _ h]
  rw [dropWhile_eq_self_of _ _ (fun c hc => h c (by simpa using hc))]
  rw [List.reverse_reverse]

lemma pyFloatCoreNone (l : List Char)
    (hall : ∀ c ∈ l, c.isDigit = true ∨ c = '.')
    (hbad : 2 ≤ l.count '.' ∨ l.all (fun c => c = '.') = true) :
    pyFloatCore l = none := by
  unfold pyFloatCore
  rcases hr : l.dropWhile Char.isDigit with _ | ⟨c, t⟩
  · -- the whole string is digits
    rcases hbad with hb | hb
    · exfalso
      have hmem : '.' ∉ l := by
        intro hmem
        have := List.dropWhile_eq_nil_iff.mp hr '.' hmem
        simp at this
      rw [List.count_eq_zero.mpr hmem] at hb
      omega
    · -- all dots and all digits: empty, so the integer branch yields none
      have hip : l.takeWhile Char.isDigit = [] := by
        cases hl : l with
        | nil => rfl
        | cons a t2 =>
          have hd : a = '.' := by
            have := List.all_eq_true.mp hb a (by rw [hl]; exact List.mem_cons_self a t2)
            simpa using this
          exfalso
          have : Char.isDigit a = true := by
            have := List.dropWhile_eq_nil_iff.mp hr a (by rw [hl]; exact List.mem_cons_self a t2)
            exact this
          rw [hd] at this
          simp at this
      simp [hip]
  · -- first non-digit exists; it must be a dot
    have hcl : c ∈ l := (List.dropWhile_sublist Char.isDigit).mem (by rw [hr]; exact List.mem_cons_self c t)
    have hcd : Char.isDigit c = false := dropWhile_head_not _ l c t hr
    have hc : c = '.' := by
      rcases hall c hcl with h | h
      · rw [h] at hcd; cases hcd
      · exact h
    subst hc
    by_cases hie : (l.takeWhile Char.isDigit).isEmpty = true ∧ (t.takeWhile Char.isDigit).isEmpty = true
    · simp [hie.1, hie.2]
    · -- at least one digit was found; show there is a second dot blocking the parse
      rcases hbad with hb | hb
      · have hcount2 : 1 ≤ t.count '.' := by
          have hsplit : l = l.takeWhile Char.isDigit ++ '.' :: t := by
            rw [← hr, List.takeWhile_append_dropWhile]
          have hctW : l.count '.' = ('.' :: t).count '.' := by
            rw [hsplit, List.count_append]
            have : ('.' : Char) ∉ l.takeWhile Char.isDigit := by
              intro hm
              have := List.mem_takeWhile_imp hm
              simp at this
            rw [List.count_eq_zero.mpr this]
            ring
          rw [hctW] at hb
          rw [List.count_cons_self] at hb
          omega
        have hdot_t : ('.' : Char) ∈ t := by
          by_contra hne
          rw [List.count_eq_zero.mpr hne] at hcount2
          omega
        rcases hr2 : t.dropWhile Char.isDigit with _ | ⟨c2, t2⟩
        · exfalso
          have := List.dropWhile_eq_nil_iff.mp hr2 '.' hdot_t
          simp at this
        · have hc2t : c2 ∈ t := (List.dropWhile_sublist Char.isDigit).mem (by rw [hr2]; exact List.mem_cons_self c2 t2)
          have hc2l : c2 ∈ l := by
            have hsplit : l = l.takeWhile Char.isDigit ++ '.' :: t := by
              rw [← hr, List.takeWhile_append_dropWhile]
            rw [hsplit]
            simp [hc2t]
          have hc2d : Char.isDigit c2 = false := dropWhile_head_not _ t c2 t2 hr2
          have hc2 : c2 = '.' := by
            rcases hall c2 hc2l with h | h
            · rw [h] at hc2d; cases hc2d
            · exact h
          subst hc2
          simp only [hr2]
          split
          · rfl
          · simp
      · -- all dots: no digits anywhere, contradicting hie
        exfalso
        apply hie
        constructor
        · rw [List.isEmpty_iff]
          cases hl : l.takeWhile Char.isDigit with
          | nil => rfl
          | cons a t2 =>
            exfalso
            have ha : Char.isDigit a = true := List.mem_takeWhile_imp (by rw [hl]; exact List.mem_cons_self a t2)
            have hal : a ∈ l := (List.takeWhile_sublist Char.isDigit).mem (by rw [hl]; exact List.mem_cons_self a t2)
            have := List.all_eq_true.mp hb a hal
            simp at this
            rw [this] at ha
            simp at ha
        · rw [List.isEmpty_iff]
          cases hl : t.takeWhile Char.isDigit with
          | nil => rfl
          | cons a t2 =>
            exfalso
            have ha : Char.isDigit a = true := List.mem_takeWhile_imp (by rw [hl]; exact List.mem_cons_self a t2)
            have hat : a ∈ t := (List.takeWhile_sublist Char.isDigit).mem (by rw [hl]; exact List.mem_cons_self a t2)
            have hal : a ∈ l := by
              have hsplit : l = l.takeWhile Char.isDigit ++ '.' :: t := by
                rw [← hr, List.takeWhile_append_dropWhile]
              rw [hsplit]
              simp [hat]
            have := List.all_eq_true.mp hb a hal
            simp at this
            rw [this] at ha
            simp at ha

lemma pyFloatDigitsDotsNone (l : List Char)
    (hall : ∀ c ∈ l, c.isDigit = true ∨ c = '.')
    (hbad : 2 ≤ l.count '.' ∨ l.all (fun c => c = '.') = true) :
    pyFloat? (String.mk l) = none := by
  have hns : ∀ c ∈ (String.mk l).data, isPySpace c = false := by
    intro c hc
    rcases hall c hc with h | h
    · by_contra habs
      rw [Bool.not_eq_false] at habs
      simp only [isPySpace, Bool.or_eq_true, decide_eq_true_eq] at habs
      rcases habs with ((((h1 | h1) | h1) | h1) | h1) | h1 <;> subst h1 <;> exact absurd h (by decide)
    · subst h
      decide
  unfold pyFloat?
  rw [pyStrip_eq_self _ hns]
  split
  · next t heq =>
    have hl : l = '+' :: t := heq
    rcases hall '+' (by rw [hl]; exact List.mem_cons_self _ _) with h | h
    · exact absurd h (by decide)
    · exact absurd h (by decide)
  · next t heq =>
    have hl : l = '-' :: t := heq
    rcases hall '-' (by rw [hl]; exact List.mem_cons_self _ _) with h | h
    · exact absurd h (by decide)
    · exact absurd h (by decide)
  · next l2 heq1 heq2 =>
    exact pyFloatCoreNone l hall hbad

/-! ### Lemmas: `calculate_percentage_change` -/

lemma calc_none_left (o n : Option PyVal)
    (h : (∃ e, clean_price o = .error e) ∨ clean_price o = .ok none) :
    calculate_percentage_change o n = none := by
  unfold calculate_percentage_change
  rcases h with ⟨e, he⟩ | he <;> rw [he]

lemma calc_none_right (o n : Option PyVal)
    (h : (∃ e, clean_price n = .error e) ∨ clean_price n = .ok none) :
    calculate_percentage_change o n = none := by
  unfold calculate_percentage_change
  rcases ho : clean_price o with e | v
  · rfl
  · rcases h with ⟨e, he⟩ | he <;> rw [he] <;> cases v <;> rfl

lemma clean_price_nothing (v : Option PyVal) (h : cleansToNothingSpec v = true) :
    clean_price v = .ok none := by
  match v with
  | none => rfl
  | some (.vs s) =>
    simp only [cleansToNothingSpec, Bool.or_eq_true, decide_eq_true_eq, List.isEmpty_iff] at h
    show (if s = "" ∨ s = "Not Found" then Except.ok none else cleanDigitsDots s) = .ok none
    rcases h with (h | h) | h
    · rw [if_pos (Or.inl h)]
    · rw [if_pos (Or.inr h)]
    · by_cases h0 : s = "" ∨ s = "Not Found"
      · rw [if_pos h0]
      · rw [if_neg h0]
        unfold cleanDigitsDots
        rw [if_pos (by rw [List.isEmpty_iff]; exact h)]
  | some (.vi n) => simp [cleansToNothingSpec] at h
  | some (.vf q) => simp [cleansToNothingSpec] at h
  | some (.obj t) => simp [cleansToNothingSpec] at h

lemma clean_price_vs_invalid (s : String)
    (hbad : 2 ≤ (s.data.filter (fun c => c.isDigit || c = '.')).count '.' ∨
            (s.data.filter (fun c => c.isDigit || c = '.')).all (fun c => c = '.') = true) :
    clean_price (some (.vs s)) = .ok none ∨ clean_price (some (.vs s)) = .error "ValueError" := by
  show (if s = "" ∨ s = "Not Found" then Except.ok none else cleanDigitsDots s) = .ok none ∨
    (if s = "" ∨ s = "Not Found" then Except.ok none else cleanDigitsDots s) = .error "ValueError"
  by_cases h0 : s = "" ∨ s = "Not Found"
  · left; rw [if_pos h0]
  · rw [if_neg h0]
    unfold cleanDigitsDots
    by_cases hemp : (s.data.filter (fun c => c.isDigit || c = '.')).isEmpty = true
    · left
      rw [if_pos hemp]
    · right
      rw [if_neg hemp]
      have hall : ∀ c ∈ s.data.filter (fun c => c.isDigit || c = '.'),
          c.isDigit = true ∨ c = '.' := by
        intro c hc
        have h2 := (List.mem_filter.mp hc).2
        simp only [Bool.or_eq_true, decide_eq_true_eq] at h2
        exact h2
      have hnone := pyFloatDigitsDotsNone _ hall hbad
      rw [hnone]

/-- C1: `calculate_percentage_change` is `None` exactly on uncleanable inputs —
including strings whose digit-and-dot residue still fails float conversion,
which the claim's enumeration misses — is `+inf` (resp. `0.0`) when the cleaned
old price is zero and the new one is nonzero (resp. zero), and otherwise is
`round(((new-old)/old)*100, 2)`; the four quoted example pairs hold. -/
theorem spec_C1 :
    (∀ o n : Option PyVal, cleansToNothingSpec o = true ∨ cleansToNothingSpec n = true →
       calculate_percentage_change o n = none) ∧
    (∀ (s : String) (w : Option PyVal),
       (2 ≤ (s.data.filter (fun c => c.isDigit || c = '.')).count '.' ∨
        (s.data.filter (fun c => c.isDigit || c = '.')).all (fun c => c = '.') = true) →
       calculate_percentage_change (some (.vs s)) w = none ∧
       calculate_percentage_change w (some (.vs s)) = none) ∧
    (∀ (o n : Option PyVal) (a b : Frac),
       clean_price o = .ok (some a) → clean_price n = .ok (some b) →
       0 < a.den → 0 < b.den →
       (a.toQ = 0 → b.toQ ≠ 0 → calculate_percentage_change o n = some .pinf) ∧
       (a.toQ = 0 → b.toQ = 0 →
          calculate_percentage_change o n = some (.val (Frac.ofInt 0))) ∧
       (a.toQ ≠ 0 → ∃ r, calculate_percentage_change o n = some (.val r) ∧
          r.toQ = qRound ((b.toQ - a.toQ) / a.toQ * 100) 2)) ∧
    (calculate_percentage_change (some (.vi 100)) (some (.vi 110))
        = some (.val (Frac.ofInt 10)) ∧
     calculate_percentage_change (some (.vi 0)) (some (.vi 0))
        = some (.val (Frac.ofInt 0)) ∧
     calculate_percentage_change (some (.vi 0)) (some (.vi 5)) = some .pinf ∧
     calculate_percentage_change none (some (.vi 5)) = none) := by
  refine ⟨?_, ?_, ?_, by decide, by decide, by decide, by decide⟩
  · intro o n h
    rcases h with h | h
    · exact calc_none_left o n (Or.inr (clean_price_nothing o h))
    · exact calc_none_right o n (Or.inr (clean_price_nothing n h))
  · intro s w hbad
    rcases clean_price_vs_invalid s hbad with h | h
    · exact ⟨calc_none_left _ _ (Or.inr h), calc_none_right _ _ (Or.inr h)⟩
    · exact ⟨calc_none_left _ _ (Or.inl ⟨_, h⟩), calc_none_right _ _ (Or.inl ⟨_, h⟩)⟩
  · intro o n a b ho hn hda hdb
    have hdaq : a.den ≠ 0 := by omega
    have hdbq : b.den ≠ 0 := by omega
    have hza := isZero_iff a hdaq
    have hzb := isZero_iff b hdbq
    refine ⟨?_, ?_, ?_⟩
    · intro haz hbz
      unfold calculate_percentage_change
      rw [ho, hn]
      have h1 : a.isZero = true := hza.mpr haz
      have h2 : b.isZero = false := by
        rcases Bool.eq_false_or_eq_true b.isZero with h | h
        · exact absurd (hzb.mp h) hbz
        · exact h
      simp [h1, h2]
    · intro haz hbz
      unfold calculate_percentage_change
      rw [ho, hn]
      have h1 : a.isZero = true := hza.mpr haz
      have h2 : b.isZero = true := hzb.mpr hbz
      simp [h1, h2]
    · intro haz
      unfold calculate_percentage_change
      rw [ho, hn]
      have h1 : a.isZero = false := by
        rcases Bool.eq_false_or_eq_true a.isZero with h | h
        · exact absurd (hza.mp h) haz
        · exact h
      simp only [h1, Bool.false_eq_true, if_false]
      refine ⟨_, rfl, ?_⟩
      have hanum : a.num ≠ 0 := by
        intro hz
        exact haz ((isZero_iff a hdaq).mp (by simp [Frac.isZero, hz]))
      obtain ⟨hs1, hs2⟩ := subF_spec b a hdbq hdaq
      have hsne : (b.subF a).den ≠ 0 := by omega
      obtain ⟨hd1, hd2⟩ := divF_spec (b.subF a) a hsne hdaq hanum
      have hdne : ((b.subF a).divF a).den ≠ 0 := by omega
      obtain ⟨hm1, hm2⟩ := mulF_spec ((b.subF a).divF a) (Frac.ofInt 100) hdne (by simp [Frac.ofInt])
      obtain ⟨hr1, _⟩ := pyRound_spec (((b.subF a).divF a).mulF (Frac.ofInt 100)) 2 hm2
      rw [hr1, hm1, hd1, hs1, ofInt_toQ]
      norm_num

theorem spec_C1_cex :
    calculate_percentage_change (some (.vs "1")) (some (.vs ".")) = none ∧
    cleansToNothingSpec (some (.vs "1")) = false ∧
    cleansToNothingSpec (some (.vs ".")) = false ∧
    clean_price (some (.vs "1")) = .ok (some (Frac.ofInt 1)) := by decide

theorem spec_C1_witness :
    calculate_percentage_change (some (.vs "abc")) (some (.vi 7)) = none ∧
    calculate_percentage_change (some (.vs "1.2.3")) (some (.vi 7)) = none ∧
    (∃ r, calculate_percentage_change (some (.vi 40)) (some (.vi 50)) = some (.val r) ∧
       r.toQ = qRound (((Frac.ofInt 50).toQ - (Frac.ofInt 40).toQ) / (Frac.ofInt 40).toQ * 100) 2) := by
  refine ⟨spec_C1.1 _ _ (Or.inl (by decide)), (spec_C1.2.1 "1.2.3" _ (by decide)).1, ?_⟩
  exact (spec_C1.2.2.1 (some (.vi 40)) (some (.vi 50)) (Frac.ofInt 40) (Frac.ofInt 50)
          rfl rfl (by decide) (by decide)).2.2
        (by simp [Frac.ofInt, Frac.toQ])

/-! ### Lemmas: the bounded capture queue -/

lemma recv_foldl {α : Type} (ps : List α) : ∀ q : List α, q.length ≤ 50 →
    List.foldl receive_scrape q ps = (q ++ ps).drop ((q ++ ps).length - 50) := by
  induction ps with
  | nil =>
    intro q h
    simp only [List.foldl_nil, List.append_nil]
    rw [show q.length - 50 = 0 from by omega, List.drop_zero]
  | cons a t ih =>
    intro q h
    rw [List.foldl_cons]
    by_cases hlt : q.length < 50
    · have hstep : receive_scrape q a = q ++ [a] := by
        unfold receive_scrape QUEUE_MAXSIZE
        rw [if_pos hlt]
      rw [hstep, ih (q ++ [a]) (by simp; omega)]
      rw [List.append_assoc, List.singleton_append]
    · have h50 : q.length = 50 := by omega
      have hstep : receive_scrape q a = q.drop 1 ++ [a] := by
        unfold receive_scrape QUEUE_MAXSIZE
        rw [if_neg hlt]
      rw [hstep, ih (q.drop 1 ++ [a]) (by simp [List.length_drop]; omega)]
      rw [List.append_assoc, List.singleton_append]
      rw [List.drop_append_eq_append_drop, List.drop_append_eq_append_drop, List.drop_drop]
      have hL1 : (q.drop 1 ++ a :: t).length - 50 = t.length := by
        simp only [List.length_append, List.length_drop, List.length_cons, h50]
        omega
      have hL2 : (q ++ a :: t).length - 50 = t.length + 1 := by
        simp only [List.length_append, List.length_cons, h50]
        omega
      rw [hL1, hL2]
      have hA : 1 + t.length = t.length + 1 := by omega
      have hB : t.length - (q.drop 1).length = t.length + 1 - q.length := by
        simp only [List.length_drop, h50]
        omega
      rw [hA, hB]

/-- C3: the capture queue bounded at 50 drops exactly the oldest entry when
full: after enqueueing 51 payloads the 50 most recent remain in FIFO order,
the oldest is gone, and the size never exceeds 50. -/
theorem spec_C3 {α : Type} (ps : List α) (h51 : ps.length = 51) :
    List.foldl receive_scrape [] ps = ps.drop 1 ∧
    ∀ k, (List.foldl receive_scrape ([] : List α) (ps.take k)).length ≤ 50 := by
  constructor
  · have := recv_foldl ps ([] : List α) (by simp)
    simpa [h51] using this
  · intro k
    have := recv_foldl (ps.take k) ([] : List α) (by simp)
    rw [List.nil_append] at this
    rw [this, List.length_drop]
    omega

theorem spec_C3_witness :
    List.foldl receive_scrape [] (List.range 51) = (List.range 51).drop 1 ∧
    (List.foldl receive_scrape ([] : List Nat) ((List.range 51).take 51)).length ≤ 50 :=
  ⟨(spec_C3 (List.range 51) (by simp)).1, (spec_C3 (List.range 51) (by simp)).2 51⟩

/-! ### Lemmas: the price-history ledger -/

lemma update_history_empty (entry cur : PartRecord)
    (h : cur.history = none ∨ cur.history = some (.vs "")) :
    update_price_history entry cur =
      .ok { entry with
            history := some (.vs (historyEntryText cur)),
            lastPrice := cur.unitPrice,
            lastDate := cur.date } := by
  unfold update_price_history
  rcases h with h | h <;> rw [h] <;> simp

lemma update_history_nonempty (entry cur : PartRecord) (h0 : String)
    (hne : h0 ≠ "") (h : cur.history = some (.vs h0)) :
    update_price_history entry cur =
      .ok { entry with
            history := some (.vs (h0 ++ ", " ++ historyEntryText cur)),
            lastPrice := cur.unitPrice,
            lastDate := cur.date } := by
  unfold update_price_history
  rw [h]
  simp [hne]

lemma historyEntryText_ne_empty (cur : PartRecord) : historyEntryText cur ≠ "" := by
  unfold historyEntryText
  intro h
  have : (("Date: " ++ pyShowOpt cur.date ++ " Price: " ++ pyShowOpt cur.unitPrice) : String).data
      = ("" : String).data := by rw [h]
  simp only [String.data_append] at this
  simp at this

/-- C6: `update_price_history` keeps the prior ledger text unchanged as a
prefix, appends exactly one comma-joined `Date:`/`Price:` entry built from the
previous record (no leading comma on an empty or null ledger), rolls the
last-updated price/date, and two successive qualifying updates keep both
entries in chronological order. -/
theorem spec_C6 (entry cur : PartRecord) :
    (cur.history = none ∨ cur.history = some (.vs "") →
       update_price_history entry cur =
         .ok { entry with
               history := some (.vs (historyEntryText cur)),
               lastPrice := cur.unitPrice,
               lastDate := cur.date }) ∧
    (∀ h0, h0 ≠ "" → cur.history = some (.vs h0) →
       update_price_history entry cur =
         .ok { entry with
               history := some (.vs (h0 ++ ", " ++ historyEntryText cur)),
               lastPrice := cur.unitPrice,
               lastDate := cur.date }) ∧
    (∀ (h0 : String) (entry2 cur2 rec1 : PartRecord), h0 ≠ "" →
       cur.history = some (.vs h0) →
       update_price_history entry cur = .ok rec1 →
       cur2.history = rec1.history →
       update_price_history entry2 cur2 =
         .ok { entry2 with
               history := some (.vs ((h0 ++ ", " ++ historyEntryText cur)
                   ++ ", " ++ historyEntryText cur2)),
               lastPrice := cur2.unitPrice,
               lastDate := cur2.date }) := by
  refine ⟨update_history_empty entry cur, fun h0 hne h => update_history_nonempty entry cur h0 hne h, ?_⟩
  intro h0 entry2 cur2 rec1 hne h hr1 hh2
  have h1 := update_history_nonempty entry cur h0 hne h
  rw [h1] at hr1
  have hrec : rec1 = { entry with
      history := some (.vs (h0 ++ ", " ++ historyEntryText cur)),
      lastPrice := cur.unitPrice,
      lastDate := cur.date } := by
    cases hr1
    rfl
  have hh2' : cur2.history = some (.vs (h0 ++ ", " ++ historyEntryText cur)) := by
    rw [hh2, hrec]
  have hne2 : (h0 ++ ", " ++ historyEntryText cur) ≠ "" := by
    intro habs
    have : ((h0 ++ ", " ++ historyEntryText cur) : String).data = ("" : String).data := by
      rw [habs]
    simp only [String.data_append] at this
    rcases List.append_eq_nil.mp this with ⟨h2, _⟩
    rcases List.append_eq_nil.mp h2 with ⟨_, h3⟩
    simp at h3
  have := update_history_nonempty entry2 cur2 _ hne2 hh2'
  rw [this]

/-! ### Lemmas: key coercion and lookup -/

/-- C7: `prepare_aci_for_excel` coerces all-digit key strings (`"00123"`) to
integers, passes non-numeric keys unchanged and converts whole-number floats
to ints, while the row lookup compares sanitized, trimmed string renderings of
both sides, so the key `"123"` finds a row storing either `123` or `"123"`. -/
theorem spec_C7 :
    prepare_aci_for_excel (some (.vs "00123")) = some (.vi 123) ∧
    (∀ s : String, pyIsDigits (pyStrip s) = false →
        prepare_aci_for_excel (some (.vs s)) = some (.vs s)) ∧
    (∀ q : Frac, q.den = 1 → prepare_aci_for_excel (some (.vf q)) = some (.vi q.num)) ∧
    (∀ v : PyVal, v = .vs "123" ∨ v = .vi 123 → cellMatches (some v) "123" = true) ∧
    (∀ keys : List (Option PyVal), (∃ c ∈ keys, cellMatches c "123" = true) →
        (findByKey keys "123").isSome = true) ∧
    (∀ (k : Option PyVal) (ks : List (Option PyVal)) (s : String),
        findByKey (k :: ks) s =
          if cellMatches k s then some 0 else (findByKey ks s).map (· + 1)) ∧
    findByKey [some (.vs "xyz"), some (.vi 123), some (.vs "123")] "123" = some 1 := by
  refine ⟨by decide, ?_, ?_, ?_, ?_, ?_, by decide⟩
  · intro s h
    simp [prepare_aci_for_excel, pyShow, h]
  · intro q h
    simp [prepare_aci_for_excel, h]
  · intro v h
    rcases h with h | h <;> subst h <;> decide
  · intro keys hex
    unfold findByKey
    rw [List.findIdx?_isSome, List.any_eq_true]
    obtain ⟨c, hc, hm⟩ := hex
    exact ⟨c, hc, hm⟩
  · intro k ks s
    unfold findByKey
    rw [List.findIdx?_cons]
    by_cases h : cellMatches k s = true
    · rw [if_pos h, if_pos h]
    · rw [if_neg h, if_neg h, List.findIdx?_succ]

theorem spec_C7_witness :
    prepare_aci_for_excel (some (.vs "A-77")) = some (.vs "A-77") ∧
    prepare_aci_for_excel (some (.vf (Frac.ofInt 123))) = some (.vi 123) ∧
    (findByKey [none, some (.vi 123)] "123").isSome = true :=
  ⟨spec_C7.2.1 "A-77" (by decide),
   spec_C7.2.2.1 (Frac.ofInt 123) rfl,
   spec_C7.2.2.2.2.1 [none, some (.vi 123)] ⟨some (.vi 123), by decide, by decide⟩⟩

/-! ### Lemmas: batch match validation -/

/-- C10: `validate_batch_match` declares a match whenever the stored part
number is falsy or the scraped mfr number is the sentinel, and likewise when
the stored unit is falsy or the scraped unit is `not found`; when both sides
are present, the part comparison is case-insensitive after trimming and the
unit comparison compares trimmed lowered strings. -/
theorem spec_C10 :
    (∀ (cur : PartRecord) (scr : Parsed) (vk : String),
       (batchCurrentPart cur = "" ∨ batchScrapedPart scr = "Not Found") →
       (batchCurrentUnit cur = "" ∨ batchScrapedUnit scr = "not found") →
       validate_batch_match cur scr vk = (true, "Match")) ∧
    (∀ (cur : PartRecord) (scr : Parsed) (vk : String),
       pyStrip (pyLower vk) ≠ "mcmaster" → pyStrip (pyLower vk) ≠ "mcmaster-carr" →
       batchCurrentPart cur ≠ "" → batchScrapedPart scr ≠ "Not Found" →
       batchCurrentUnit cur ≠ "" → batchScrapedUnit scr ≠ "not found" →
       (validate_batch_match cur scr vk = (true, "Match") ↔
         (pyLower (batchCurrentPart cur) = pyLower (batchScrapedPart scr) ∧
          batchCurrentUnit cur = batchScrapedUnit scr))) := by
  constructor
  · intro cur scr vk hpart hunit
    simp only [validate_batch_match]
    have hpf : (if pyStrip (pyLower vk) ≠ "mcmaster" ∧ pyStrip (pyLower vk) ≠ "mcmaster-carr" then
        decide (batchCurrentPart cur ≠ "" ∧ batchScrapedPart scr ≠ "Not Found" ∧
          pyLower (batchCurrentPart cur) ≠ pyLower (batchScrapedPart scr))
      else false) = false := by
      split
      · rw [decide_eq_false_iff_not]
        rintro ⟨h1, h2, _⟩
        rcases hpart with h | h
        · exact h1 h
        · exact h2 h
      · rfl
    rw [hpf]
    simp only [Bool.false_eq_true, if_false]
    rw [if_neg]
    rintro ⟨h1, h2, _⟩
    rcases hunit with h | h
    · exact h1 h
    · exact h2 h
  · intro cur scr vk hv1 hv2 hp1 hp2 hu1 hu2
    simp only [validate_batch_match]
    constructor
    · intro hres
      by_cases hpeq : pyLower (batchCurrentPart cur) = pyLower (batchScrapedPart scr)
      · refine ⟨hpeq, ?_⟩
        by_cases hueq : batchCurrentUnit cur = batchScrapedUnit scr
        · exact hueq
        · exfalso
          have hpf : (if pyStrip (pyLower vk) ≠ "mcmaster" ∧ pyStrip (pyLower vk) ≠ "mcmaster-carr" then
              decide (batchCurrentPart cur ≠ "" ∧ batchScrapedPart scr ≠ "Not Found" ∧
                pyLower (batchCurrentPart cur) ≠ pyLower (batchScrapedPart scr))
            else false) = false := by
            rw [if_pos ⟨hv1, hv2⟩, decide_eq_false_iff_not]
            rintro ⟨_, _, hne⟩
            exact hne hpeq
          rw [hpf] at hres
          simp only [Bool.false_eq_true, if_false] at hres
          rw [if_pos ⟨hu1, hu2, hueq⟩] at hres
          cases hres
      · exfalso
        have : (if pyStrip (pyLower vk) ≠ "mcmaster" ∧ pyStrip (pyLower vk) ≠ "mcmaster-carr" then
            decide (batchCurrentPart cur ≠ "" ∧ batchScrapedPart scr ≠ "Not Found" ∧
              pyLower (batchCurrentPart cur) ≠ pyLower (batchScrapedPart scr))
          else false) = true := by
          rw [if_pos ⟨hv1, hv2⟩, decide_eq_true_eq]
          exact ⟨hp1, hp2, hpeq⟩
        rw [this] at hres
        simp at hres
    · rintro ⟨hpeq, hueq⟩
      have hpf : (if pyStrip (pyLower vk) ≠ "mcmaster" ∧ pyStrip (pyLower vk) ≠ "mcmaster-carr" then
          decide (batchCurrentPart cur ≠ "" ∧ batchScrapedPart scr ≠ "Not Found" ∧
            pyLower (batchCurrentPart cur) ≠ pyLower (batchScrapedPart scr))
        else false) = false := by
        rw [if_pos ⟨hv1, hv2⟩, decide_eq_false_iff_not]
        rintro ⟨_, _, hne⟩
        exact hne hpeq
      rw [hpf]
      simp only [Bool.false_eq_true, if_false]
      rw [if_neg]
      rintro ⟨_, _, hne⟩
      exact hne hueq

/-! ### Lemmas: zoro normalisation as a first-match search -/

lemma zoroLoop_eq_findSome (p1 : String) (u : PyVal) (segs : List String) :
    zoroLoop p1 u segs =
      match segs.findSome? zoroSeg? with
      | some (f, up) => (.vs (pyShowFloat f), zUnit up u, zQty up)
      | none => (.vs p1, u, 1) := by
  induction segs with
  | nil => rfl
  | cons seg rest ih =>
    rw [List.findSome?_cons]
    cases h : zoroSeg? seg with
    | none => simpa [zoroLoop, h] using ih
    | some v =>
      obtain ⟨f, up⟩ := v
      simp [zoroLoop, h]

/-- C4: zoro normalisation scans the comma segments for the first one whose
at-least-two slash-parts have a float-parsable first part — segments failing
the float parse are skipped rather than decisive, and the pack quantity comes
from `split()[1]` of the unit part; the two quoted examples hold. -/
theorem spec_C4 (p : String) (u : PyVal) (hnf : pyContains p "Not Found" = false) :
    cleanup_zoro_data (.vs p) u =
      .ok (match (pySplitOn (zoroClean p) ",").findSome? zoroSeg? with
           | some (f, up) => (.vs (pyShowFloat f), zUnit up u, zQty up)
           | none => (.vs (zoroClean p), u, 1)) ∧
    cleanup_zoro_data (.vs "$123.45 / pk 10") (.vs "Not Found")
      = .ok (.vs "123.45", .vs "pk", 10) ∧
    cleanup_zoro_data (.vs "$45.67 / ea") (.vs "Not Found")
      = .ok (.vs "45.67", .vs "each", 1) := by
  refine ⟨?_, by decide, by decide⟩
  show (if pyContains p "Not Found" = true then Except.ok (PyVal.vs p, u, 1)
        else Except.ok (zoroLoop (zoroClean p) u (pySplitOn (zoroClean p) ","))) = _
  rw [if_neg (by simp [hnf])]
  rw [zoroLoop_eq_findSome]

theorem spec_C4_witness :
    cleanup_zoro_data (.vs "$9.99 / pr") (.vs "U") =
      .ok (match (pySplitOn (zoroClean "$9.99 / pr") ",").findSome? zoroSeg? with
           | some (f, up) => (.vs (pyShowFloat f), zUnit up (.vs "U"), zQty up)
           | none => (.vs (zoroClean "$9.99 / pr"), .vs "U", 1)) :=
  (spec_C4 "$9.99 / pr" (.vs "U") (by decide)).1

theorem spec_C4_cex :
    zoroSpecFirstSeg "abc/ea, $5/x pk 10" = some "abc/ea" ∧
    pySplitOn (pyReplace (pyStrip "abc/ea") "$" "") "/" = ["abc", "ea"] ∧
    zUnit "ea" (.vs "U") = .vs "each" ∧
    cleanup_zoro_data (.vs "abc/ea, $5/x pk 10") (.vs "U") = .ok (.vs "5.0", .vs "pk", 1) := by
  decide

/-! ### Lemmas: McMaster normalisation -/

/-- C5: the McMaster unit-field rule is not applied case-insensitively
end-to-end: `"$10.33 per pack of 10"` parses as claimed and a lowercase
`"pack of 10"` unit field yields pack/10, but the unit field `"PACK OF 10"`
raises `IndexError`, because detection lowercases while the split is on the
literal lowercase `" of "` and `parts[1]` is unguarded. -/
theorem spec_C5 :
    cleanup_mcmaster_data (.vs "$10.33 per pack of 10") (.vs "Not Found")
      = .ok (.vs "10.33", .vs "pack", 10) ∧
    cleanup_mcmaster_data (.vs "$7.00") (.vs "EACH") = .ok (.vs "7.00", .vs "each", 1) ∧
    cleanup_mcmaster_data (.vs "$5.00") (.vs "Pack of 10") = .ok (.vs "5.00", .vs "pack", 10) ∧
    cleanup_mcmaster_data (.vs "$5.00") (.vs "PACK OF 10") = .error "IndexError" := by
  decide

/-! ### Lemmas: normalizer totality -/

lemma cleanup_zoro_ok (p : String) (u : PyVal) :
    ∃ out, cleanup_zoro_data (.vs p) u = .ok out := by
  show ∃ out, (if pyContains p "Not Found" = true then Except.ok (PyVal.vs p, u, 1)
      else Except.ok (zoroLoop (zoroClean p) u (pySplitOn (zoroClean p) ","))) = .ok out
  by_cases h : pyContains p "Not Found" = true
  · exact ⟨_, by rw [if_pos h]⟩
  · exact ⟨_, by rw [if_neg h]⟩

lemma cleanup_grainger_ok (p u m : String)
    (hm : ¬(pyContains m " " = true ∧ (pySplitWs m).isEmpty = true)) :
    ∃ out, cleanup_grainger_data (.vs p) (.vs u) (.vs m) = .ok out := by
  unfold cleanup_grainger_data
  by_cases hp : (PyVal.vs p) = .vs "Not Found"
  · rw [if_pos hp]
    simp only [bind, Except.bind, pure, Except.pure]
    rw [if_neg hm]
    exact ⟨_, rfl⟩
  · rw [if_neg hp]
    simp only [bind, Except.bind, pure, Except.pure]
    rw [if_neg hm]
    exact ⟨_, rfl⟩

lemma cleanup_festo_ok (p : String) (u : PyVal) (q : Option PyVal)
    (hq : ∀ t, q ≠ some (.obj t)) :
    ∃ out, cleanup_festo_data (.vs p) u q = .ok out := by
  unfold cleanup_festo_data
  by_cases hp : (PyVal.vs p) = .vs "Not Found" <;>
    [rw [if_pos hp]; rw [if_neg hp]] <;>
  · simp only [bind, Except.bind, pure, Except.pure]
    by_cases hc : truthy q = true ∧ q ≠ some (.vs "Not Found")
    · rw [if_pos hc]
      match q, hq with
      | none, _ => exact ⟨_, rfl⟩
      | some (.vs s), _ => exact ⟨_, rfl⟩
      | some (.vi n), _ => exact ⟨_, rfl⟩
      | some (.vf x), _ => exact ⟨_, rfl⟩
      | some (.obj t), hq => exact absurd rfl (hq t)
    · rw [if_neg hc]
      exact ⟨_, rfl⟩

lemma splitGo_ne_nil (sep : List Char) :
    ∀ (fuel : Nat) (cur l : List Char), splitGo sep fuel cur l ≠ [] := by
  intro fuel
  induction fuel with
  | zero =>
    intro cur l
    cases l <;> simp [splitGo]
  | succ f ih =>
    intro cur l
    cases l with
    | nil => simp [splitGo]
    | cons c rest =>
      unfold splitGo
      split
      · simp
      · exact ih _ _

lemma pySplitOn_ne_nil (s sep : String) : pySplitOn s sep ≠ [] := by
  unfold pySplitOn
  split
  · simp
  · simp [splitGo_ne_nil]

lemma pySplit1_get1 (s sep : String) (h : pyContains s sep = true) :
    ∃ x, (pySplit1 s sep).get? 1 = some x := by
  unfold pyContains at h
  rw [decide_eq_true_eq] at h
  unfold pySplit1
  cases hsp : pySplitOn s sep with
  | nil => exact absurd hsp (pySplitOn_ne_nil s sep)
  | cons a rest =>
    cases rest with
    | nil =>
      rw [hsp] at h
      simp at h
    | cons b r2 =>
      simp

lemma mcmasterPricePhase_unit (p : String) (unit : PyVal) :
    (mcmasterPricePhase p unit).2.1 = unit ∨ (mcmasterPricePhase p unit).2.1 = .vs "pack" ∨
    (mcmasterPricePhase p unit).2.1 = .vs "each" := by
  by_cases h1 : pyContains p "Not Found" = true
  · left
    simp [mcmasterPricePhase, h1]
  · by_cases h2 : pyContains (pyLower p) " per " = true
    · by_cases h3 : (pyContains (pyStrip ((pySplit1 (pyLower p) "per")[1]?.getD "")) "pack" = true ∧
          pyContains (pyStrip ((pySplit1 (pyLower p) "per")[1]?.getD "")) "of" = true)
      · right; left
        simp [mcmasterPricePhase, h1, h2, h3]
      · by_cases h4 : pyContains (pyStrip ((pySplit1 (pyLower p) "per")[1]?.getD "")) "each" = true
        · right; right
          simp [mcmasterPricePhase, h1, h2, h3, h4]
        · left
          simp [mcmasterPricePhase, h1, h2, h3, h4]
    · by_cases h5 : pyContains (pyLower p) "each" = true
      · right; right
        simp [mcmasterPricePhase, h1, h2, h5]
      · left
        simp [mcmasterPricePhase, h1, h2, h5]

lemma mcmasterUnitPhase_vs (price2 u : String) (qty2 : Int) :
    mcmasterUnitPhase price2 (.vs u) qty2 =
      if ¬ pyContains u "Not Found" = true ∧ u ≠ "pack" ∧ u ≠ "each" then
        if pyContains (pyLower u) "each" = true then .ok (.vs price2, .vs "each", 1)
        else if pyContains (pyLower u) "pack" = true ∧ pyContains (pyLower u) "of" = true then
          (match (pySplit1 u " of ").get? 1 with
           | none => .error "IndexError"
           | some x => .ok (.vs price2, .vs "pack", (pyInt? (pyStrip x)).getD 1))
        else .ok (.vs price2, .vs u, qty2)
      else .ok (.vs price2, .vs u, qty2) := rfl

lemma mcmasterUnitPhase_ok (price2 u : String) (qty2 : Int)
    (hu : ¬(pyContains (pyLower u) "pack" = true ∧ pyContains (pyLower u) "of" = true ∧
            pyContains u " of " = false)) :
    ∃ out, mcmasterUnitPhase price2 (.vs u) qty2 = .ok out := by
  rw [mcmasterUnitPhase_vs]
  by_cases h1 : ¬ pyContains u "Not Found" = true ∧ u ≠ "pack" ∧ u ≠ "each"
  · rw [if_pos h1]
    by_cases h2 : pyContains (pyLower u) "each" = true
    · rw [if_pos h2]
      exact ⟨_, rfl⟩
    · rw [if_neg h2]
      by_cases h3 : pyContains (pyLower u) "pack" = true ∧ pyContains (pyLower u) "of" = true
      · rw [if_pos h3]
        have hof : pyContains u " of " = true := by
          by_contra hof
          rw [Bool.not_eq_true] at hof
          exact hu ⟨h3.1, h3.2, hof⟩
        obtain ⟨x, hx⟩ := pySplit1_get1 u " of " hof
        rw [hx]
        exact ⟨_, rfl⟩
      · rw [if_neg h3]
        exact ⟨_, rfl⟩
  · rw [if_neg h1]
    exact ⟨_, rfl⟩

lemma cleanup_mcmaster_ok (p u : String)
    (hu : ¬(pyContains (pyLower u) "pack" = true ∧ pyContains (pyLower u) "of" = true ∧
            pyContains u " of " = false)) :
    ∃ out, cleanup_mcmaster_data (.vs p) (.vs u) = .ok out := by
  have hunit := mcmasterPricePhase_unit p (.vs u)
  rcases hPP : mcmasterPricePhase p (.vs u) with ⟨pr2, un2, q2⟩
  rw [hPP] at hunit
  simp only at hunit
  have hbody : cleanup_mcmaster_data (.vs p) (.vs u) = mcmasterUnitPhase pr2 un2 q2 := by
    unfold cleanup_mcmaster_data
    simp only [bind, Except.bind, pure, Except.pure]
    rw [hPP]
  rw [hbody]
  rcases hunit with h | h | h <;> subst h
  · exact mcmasterUnitPhase_ok pr2 u q2 hu
  · rw [mcmasterUnitPhase_vs, if_neg (by simp)]
    exact ⟨_, rfl⟩
  · rw [mcmasterUnitPhase_vs, if_neg (by simp)]
    exact ⟨_, rfl⟩

lemma parse_none_iff (v : String) : parse_vendor_data none v = .ok none := rfl

lemma parse_some_ne_none (r : RawData) (v : String) :
    parse_vendor_data (some r) v ≠ .ok none := by
  intro habs
  unfold parse_vendor_data at habs
  simp only [bind, Except.bind, pure, Except.pure] at habs
  repeat' split at habs
  all_goals simp_all

lemma parse_unknown_vendor (r : RawData) (v : String)
    (h : pyStrip (pyLower v) ∉ (["grainger", "mcmaster", "mcmaster-carr", "festo", "zoro"] : List String)) :
    parse_vendor_data (some r) v =
      .ok (some ⟨r.description.getD (.vs "Not Found"), r.price.getD (.vs "Not Found"),
                 r.unit.getD (.vs "Not Found"), 1, r.mfrNumber.getD (.vs "Not Found"),
                 r.brand.getD (.vs "Not Found")⟩) := by
  simp only [List.mem_cons, List.not_mem_nil, or_false, not_or] at h
  obtain ⟨h1, h2, h3, h4, h5⟩ := h
  simp only [parse_vendor_data, bind, Except.bind]
  rw [if_neg h1, if_neg (by rw [not_or]; exact ⟨h2, h3⟩), if_neg h4, if_neg h5]
  rfl

lemma strOrNone_getD (x : Option PyVal) (h : strOrNone x) :
    ∃ s, x.getD (.vs "Not Found") = .vs s := by
  rcases h with h | ⟨s, h⟩
  · exact ⟨"Not Found", by rw [h]; rfl⟩
  · exact ⟨s, by rw [h]; rfl⟩

lemma parse_total (r : RawData) (v : String)
    (hp : strOrNone r.price) (hu : strOrNone r.unit) (hm : strOrNone r.mfrNumber)
    (hg : graingerSafe r) (hmc : mcmasterSafe r) (hfq : festoQtySafe r) :
    ∃ p, parse_vendor_data (some r) v = .ok (some p) ∧
      p.description = r.description.getD (.vs "Not Found") ∧
      p.mfr_number = r.mfrNumber.getD (.vs "Not Found") ∧
      p.brand = r.brand.getD (.vs "Not Found") := by
  obtain ⟨ps, hps⟩ := strOrNone_getD r.price hp
  obtain ⟨us, hus⟩ := strOrNone_getD r.unit hu
  obtain ⟨ms, hms⟩ := strOrNone_getD r.mfrNumber hm
  simp only [parse_vendor_data, bind, Except.bind]
  rw [hps, hus, hms]
  by_cases h1 : pyStrip (pyLower v) = "grainger"
  · rw [if_pos h1]
    obtain ⟨out, hout⟩ := cleanup_grainger_ok ps us ms (hg ms hms)
    rcases out with ⟨op, ou, oq⟩
    rw [hout]
    exact ⟨_, rfl, rfl, rfl, rfl⟩
  · rw [if_neg h1]
    by_cases h2 : pyStrip (pyLower v) = "mcmaster" ∨ pyStrip (pyLower v) = "mcmaster-carr"
    · rw [if_pos h2]
      obtain ⟨out, hout⟩ := cleanup_mcmaster_ok ps us (hmc us hus)
      rcases out with ⟨op, ou, oq⟩
      rw [hout]
      exact ⟨_, rfl, rfl, rfl, rfl⟩
    · rw [if_neg h2]
      by_cases h3 : pyStrip (pyLower v) = "festo"
      · rw [if_pos h3]
        obtain ⟨out, hout⟩ := cleanup_festo_ok ps (.vs us) r.qty hfq
        rcases out with ⟨op, ou, oq⟩
        rw [hout]
        exact ⟨_, rfl, rfl, rfl, rfl⟩
      · rw [if_neg h3]
        by_cases h4 : pyStrip (pyLower v) = "zoro"
        · rw [if_pos h4]
          obtain ⟨out, hout⟩ := cleanup_zoro_ok ps (.vs us)
          rcases out with ⟨op, ou, oq⟩
          rw [hout]
          exact ⟨_, rfl, rfl, rfl, rfl⟩
        · rw [if_neg h4]
          exact ⟨_, rfl, rfl, rfl, rfl⟩

/-! ### Lemmas: normalizer assembled (claim C8) -/

/-- C8: the normalizer returns `None` exactly for an absent payload; missing
fields are filled with the `Not Found` sentinel and an unknown vendor passes
the price through with quantity 1; but totality over auto vendors additionally
requires the price/unit/mfr fields to be strings-or-absent and the listed
safety conditions — numeric fields raise, contrary to the claim (see the
counterexample). -/
theorem spec_C8 :
    (∀ v, parse_vendor_data none v = .ok none) ∧
    (∀ (r : RawData) (v : String), parse_vendor_data (some r) v ≠ .ok none) ∧
    (∀ (r : RawData) (v : String),
       pyStrip (pyLower v) ∉
         (["grainger", "mcmaster", "mcmaster-carr", "festo", "zoro"] : List String) →
       parse_vendor_data (some r) v =
         .ok (some ⟨r.description.getD (.vs "Not Found"), r.price.getD (.vs "Not Found"),
                    r.unit.getD (.vs "Not Found"), 1, r.mfrNumber.getD (.vs "Not Found"),
                    r.brand.getD (.vs "Not Found")⟩)) ∧
    (∀ (r : RawData) (v : String),
       strOrNone r.price → strOrNone r.unit → strOrNone r.mfrNumber →
       graingerSafe r → mcmasterSafe r → festoQtySafe r →
       ∃ p, parse_vendor_data (some r) v = .ok (some p) ∧
         p.description = r.description.getD (.vs "Not Found") ∧
         p.mfr_number = r.mfrNumber.getD (.vs "Not Found") ∧
         p.brand = r.brand.getD (.vs "Not Found")) :=
  ⟨parse_none_iff, parse_some_ne_none,
   fun r v h => parse_unknown_vendor r v h,
   fun r v hp hu hm hg hmc hfq => parse_total r v hp hu hm hg hmc hfq⟩

theorem spec_C8_witness :
    parse_vendor_data
        (some ⟨none, some (.vs "$9.50"), some (.vs "each"), none, none, none, none⟩) "acme" =
      .ok (some ⟨.vs "Not Found", .vs "$9.50", .vs "each", 1, .vs "Not Found", .vs "Not Found"⟩) :=
  spec_C8.2.2.1 ⟨none, some (.vs "$9.50"), some (.vs "each"), none, none, none, none⟩ "acme"
    (by decide)

theorem spec_C8_cex :
    parse_vendor_data
        (some ⟨none, some (.vf (Frac.ofInt 5)), some (.vs "each"), none, none, none, none⟩)
        "grainger" = .error "AttributeError" ∧
    (some (⟨none, some (.vf (Frac.ofInt 5)), some (.vs "each"), none, none, none, none⟩ :
        RawData) ≠ none) := by
  decide

/-! ### Lemmas: bucket accounting of the batch worker (claim C9) -/

lemma tabCloseEvents_nil (t : Option TabVal) (a : String) (ht : t ≠ some TabVal.tarr) :
    tabCloseEvents t a = [] := by
  cases t with
  | none => rfl
  | some tv =>
    cases tv with
    | tnum n => rfl
    | tstr s => rfl
    | tarr => exact absurd rfl ht

set_option maxHeartbeats 1000000 in
lemma processItem_extra_nil (env : ItemEnv) (aci : String) (h : tabSafe env) :
    (processItem env aci).2.1 = [] := by
  simp only [processItem, commitPhase]
  repeat' split
  all_goals first
    | rfl
    | exact tabCloseEvents_nil _ _ (h _ (by assumption))

lemma itemEvents_len (env : ItemEnv) (aci : String) (h : tabSafe env) :
    (itemEvents env aci).length = 1 := by
  unfold itemEvents
  rw [processItem_extra_nil env aci h]
  rfl

lemma batch_events_length (items : List (String × ItemEnv)) :
    ∀ acc : List BucketEntry × List (Nat × PartRecord),
    (∀ it ∈ items, tabSafe it.2) →
    (items.foldl
      (fun acc it => (acc.1 ++ itemEvents it.2 it.1, acc.2 ++ (processItem it.2 it.1).2.2))
      acc).1.length = acc.1.length + items.length := by
  induction items with
  | nil => intro acc _; simp
  | cons it rest ih =>
    intro acc h
    rw [List.foldl_cons, ih _ (fun x hx => h x (List.mem_cons_of_mem _ hx))]
    simp only [List.length_append, List.length_cons,
      itemEvents_len it.2 it.1 (h it (List.mem_cons_self _ _))]
    omega

lemma bucketTotals_eq_length (l : List BucketEntry) : bucketTotals l = l.length := by
  induction l with
  | nil => rfl
  | cons e rest ih =>
    cases e <;>
      simp [bucketTotals, List.filter_cons, BucketEntry.isUpdated, BucketEntry.isSkipped,
        BucketEntry.isErr, BucketEntry.isNotFound] at ih ⊢ <;>
    omega

/-- C9: every key of a batch run lands in exactly one of the four result
buckets — the bucket totals equal the input length — provided each scraped
tab id is hashable; an unhashable truthy tab id makes the tab-close
bookkeeping raise after the entry was appended, and the `except` handler then
appends a second entry for the same key (see the counterexample). -/
theorem spec_C9 (items : List (String × ItemEnv)) (h : ∀ it ∈ items, tabSafe it.2) :
    bucketTotals (batch_update_worker items).1 = items.length := by
  rw [bucketTotals_eq_length]
  unfold batch_update_worker
  rw [batch_events_length items ([], []) h]
  simp

lemma tabSafe_witEnv : tabSafe witEnv := by
  intro raw hr
  injection hr with h
  subst h
  decide

theorem spec_C9_witness :
    bucketTotals (batch_update_worker [("778", witEnv)]).1 = 1 := by
  have h : ∀ it ∈ ([("778", witEnv)] : List (String × ItemEnv)), tabSafe it.2 := by
    intro it hit
    rw [List.mem_singleton] at hit
    subst hit
    exact tabSafe_witEnv
  exact spec_C9 [("778", witEnv)] h

theorem spec_C9_cex :
    (batch_update_worker [("A1", cexTabEnv)]).1
        = [.skipped "A1" "Price not found", .err "A1" "TypeError"] ∧
    bucketTotals (batch_update_worker [("A1", cexTabEnv)]).1 = 2 ∧
    ([("A1", cexTabEnv)] : List (String × ItemEnv)).length = 1 := by
  decide

/-! ### Lemmas: the committed batch update (claim C2) -/

lemma string_nil_append (s : String) : "" ++ s = s := by
  cases s with
  | mk data => rfl

lemma pyRound_den_pos (x : Frac) (nd : Nat) : 0 < (pyRound x nd).den := by
  unfold pyRound
  exact (fcan_spec _ _ (pow_ne_zero nd (by norm_num))).2

lemma calc_val_den_pos (o n : Option PyVal) (v : Frac)
    (h : calculate_percentage_change o n = some (.val v)) : 0 < v.den := by
  unfold calculate_percentage_change at h
  repeat' split at h
  · exact absurd h (by simp)
  · injection h with h1
    injection h1 with h2
    rw [← h2]
    decide
  · injection h with h1
    injection h1 with h2
    rw [← h2]
    exact pyRound_den_pos _ _
  · exact absurd h (by simp)

lemma update_history_ledger (entry cur : PartRecord)
    (hhs : ∃ hs, cur.history.getD (.vs "") = .vs hs) :
    update_price_history entry cur =
      .ok { entry with
            history := some (.vs (ledgerAfter cur)),
            lastPrice := cur.unitPrice,
            lastDate := cur.date } := by
  obtain ⟨hs, hget⟩ := hhs
  rcases hh : cur.history with _ | pv
  · rw [update_history_empty entry cur (Or.inl hh)]
    unfold ledgerAfter
    rw [hh]
    simp [string_nil_append]
  · rcases pv with s | n | q | t
    · by_cases hs0 : s = ""
      · subst hs0
        rw [update_history_empty entry cur (Or.inr hh)]
        unfold ledgerAfter
        rw [hh]
        simp [string_nil_append]
      · rw [update_history_nonempty entry cur s hs0 hh]
        unfold ledgerAfter
        rw [hh]
        simp [hs0]
    · rw [hh] at hget; exact absurd hget (by simp)
    · rw [hh] at hget; exact absurd hget (by simp)
    · rw [hh] at hget; exact absurd hget (by simp)

lemma commitPhase_skip (env : ItemEnv) (aci : String) (cur : PartRecord) (row : Nat)
    (raw : RawData) (parsed : Parsed)
    (h : pcOutOfRange (calculate_percentage_change cur.unitPrice (some parsed.price)) = true) :
    (commitPhase env aci cur row raw parsed).1
        = .skipped aci (pcReason (calculate_percentage_change cur.unitPrice (some parsed.price))) ∧
    (commitPhase env aci cur row raw parsed).2.2 = [] := by
  simp only [commitPhase]
  rcases hcalc : calculate_percentage_change cur.unitPrice (some parsed.price) with _ | pr
  · exact ⟨rfl, rfl⟩
  · rcases pr with _ | v
    · exact ⟨rfl, rfl⟩
    · have hlt : (Frac.ofInt 15).ltF v.absF = true := by
        rw [hcalc] at h
        exact h
      exact ⟨by simp [hlt], by simp [hlt]⟩

lemma saveOk_false_of_not (env : ItemEnv) (h : ¬ env.saveOk = true) : env.saveOk = false := by
  cases hb : env.saveOk
  · rfl
  · exact absurd hb h

set_option maxHeartbeats 1000000 in
lemma commitPhase_commit (env : ItemEnv) (aci : String) (cur : PartRecord) (row : Nat)
    (raw : RawData) (parsed : Parsed) (v : Frac)
    (hcalc : calculate_percentage_change cur.unitPrice (some parsed.price) = some (.val v))
    (hlt : (Frac.ofInt 15).ltF v.absF = false)
    (hhs : ∃ hs, cur.history.getD (.vs "") = .vs hs) :
    ∃ entry,
      (commitPhase env aci cur row raw parsed).2.2 = [(row, entry)] ∧
      entry.unitPrice = some parsed.price ∧
      entry.changePct = some (.vf v) ∧
      ((Frac.ofInt 1).leF v.absF = true →
         entry.history = some (.vs (ledgerAfter cur)) ∧
         entry.lastPrice = cur.unitPrice ∧ entry.lastDate = cur.date) ∧
      ((Frac.ofInt 1).leF v.absF = false →
         entry.history = cur.history ∧ entry.lastPrice = cur.lastPrice ∧
         entry.lastDate = cur.lastDate) ∧
      (env.saveOk = true →
         (commitPhase env aci cur row raw parsed).1 = .updated aci
           (pyShowOpt cur.unitPrice ++ " → " ++ pyShow parsed.price
             ++ " (" ++ fmtPlus1 v ++ "%)")) ∧
      (env.saveOk = false →
         (commitPhase env aci cur row raw parsed).1 = .err aci "Failed to save") := by
  by_cases hle : (Frac.ofInt 1).leF v.absF = true
  · have hnz : v.isZero = false := by
      have hd := calc_val_den_pos _ _ _ hcalc
      rw [Frac.isZero]
      simp only [decide_eq_false_iff_not]
      intro h0
      rw [Frac.leF] at hle
      simp only [decide_eq_true_eq] at hle
      simp only [Frac.ofInt, Frac.absF, h0] at hle
      omega
    have hup := update_history_ledger
      { cur with
        unitPrice := some parsed.price,
        date := some (.obj "datetime.now()"),
        changePct := some (.vf v) } cur hhs
    by_cases hsk : env.saveOk = true
    · have hcp : commitPhase env aci cur row raw parsed =
          (.updated aci (pyShowOpt cur.unitPrice ++ " → " ++ pyShow parsed.price
             ++ " (" ++ fmtPlus1 v ++ "%)"),
           tabCloseEvents raw.tabId aci,
           [(row, { { cur with
                      unitPrice := some parsed.price,
                      date := some (.obj "datetime.now()"),
                      changePct := some (.vf v) } with
                    history := some (.vs (ledgerAfter cur)),
                    lastPrice := cur.unitPrice,
                    lastDate := cur.date })]) := by
        simp only [commitPhase, hcalc, hlt, Bool.false_eq_true, if_false]
        rw [if_pos ⟨by rw [hnz]; rfl, hle⟩, hup]
        simp [hsk]
      refine ⟨{ { cur with
                  unitPrice := some parsed.price,
                  date := some (.obj "datetime.now()"),
                  changePct := some (.vf v) } with
                history := some (.vs (ledgerAfter cur)),
                lastPrice := cur.unitPrice,
                lastDate := cur.date }, ?_, rfl, rfl, fun _ => ⟨rfl, rfl, rfl⟩,
        fun hf => absurd hle (by rw [hf]; exact Bool.false_ne_true), fun h2 => ?_,
        fun hf => absurd hsk (by rw [hf]; exact Bool.false_ne_true)⟩
      · rw [hcp]
      · rw [hcp]
    · have hskf := saveOk_false_of_not env hsk
      have hcp : commitPhase env aci cur row raw parsed =
          (.err aci "Failed to save",
           tabCloseEvents raw.tabId aci,
           [(row, { { cur with
                      unitPrice := some parsed.price,
                      date := some (.obj "datetime.now()"),
                      changePct := some (.vf v) } with
                    history := some (.vs (ledgerAfter cur)),
                    lastPrice := cur.unitPrice,
                    lastDate := cur.date })]) := by
        simp only [commitPhase, hcalc, hlt, Bool.false_eq_true, if_false]
        rw [if_pos ⟨by rw [hnz]; rfl, hle⟩, hup]
        simp [hskf]
      refine ⟨{ { cur with
                  unitPrice := some parsed.price,
                  date := some (.obj "datetime.now()"),
                  changePct := some (.vf v) } with
                history := some (.vs (ledgerAfter cur)),
                lastPrice := cur.unitPrice,
                lastDate := cur.date }, ?_, rfl, rfl, fun _ => ⟨rfl, rfl, rfl⟩,
        fun hf => absurd hle (by rw [hf]; exact Bool.false_ne_true),
        fun h2 => absurd h2 hsk, fun h2 => ?_⟩
      · rw [hcp]
      · rw [hcp]
  · have hle' : (Frac.ofInt 1).leF v.absF = false := by
      cases hb : (Frac.ofInt 1).leF v.absF
      · rfl
      · exact absurd hb hle
    by_cases hsk : env.saveOk = true
    · have hcp : commitPhase env aci cur row raw parsed =
          (.updated aci (pyShowOpt cur.unitPrice ++ " → " ++ pyShow parsed.price
             ++ " (" ++ fmtPlus1 v ++ "%)"),
           tabCloseEvents raw.tabId aci,
           [(row, { cur with
                    unitPrice := some parsed.price,
                    date := some (.obj "datetime.now()"),
                    changePct := some (.vf v) })]) := by
        simp only [commitPhase, hcalc, hlt, Bool.false_eq_true, if_false]
        rw [if_neg (fun hand => hle hand.2)]
        simp [hsk]
      refine ⟨{ cur with
                unitPrice := some parsed.price,
                date := some (.obj "datetime.now()"),
                changePct := some (.vf v) }, ?_, rfl, rfl,
        fun ht => absurd ht hle, fun _ => ⟨rfl, rfl, rfl⟩, fun h2 => ?_,
        fun hf => absurd hsk (by rw [hf]; exact Bool.false_ne_true)⟩
      · rw [hcp]
      · rw [hcp]
    · have hskf := saveOk_false_of_not env hsk
      have hcp : commitPhase env aci cur row raw parsed =
          (.err aci "Failed to save",
           tabCloseEvents raw.tabId aci,
           [(row, { cur with
                    unitPrice := some parsed.price,
                    date := some (.obj "datetime.now()"),
                    changePct := some (.vf v) })]) := by
        simp only [commitPhase, hcalc, hlt, Bool.false_eq_true, if_false]
        rw [if_neg (fun hand => hle hand.2)]
        simp [hskf]
      refine ⟨{ cur with
                unitPrice := some parsed.price,
                date := some (.obj "datetime.now()"),
                changePct := some (.vf v) }, ?_, rfl, rfl,
        fun ht => absurd ht hle, fun _ => ⟨rfl, rfl, rfl⟩,
        fun h2 => absurd h2 hsk, fun h2 => ?_⟩
      · rw [hcp]
      · rw [hcp]

set_option maxHeartbeats 1000000 in
lemma processItem_validated (env : ItemEnv) (aci vstr : String) (cur : PartRecord) (row : Nat)
    (raw : RawData) (parsed : Parsed)
    (hl : env.lookup = .found cur row)
    (hv : cur.vendor = some (.vs vstr))
    (hauto : is_vendor_auto (some (.vs vstr)) = .ok true)
    (hhyph : ¬(pyContains aci "-" = true ∧
      (pyLower (pyStrip vstr) = "mcmaster" ∨ pyLower (pyStrip vstr) = "mcmaster-carr")))
    (hopen : env.openOk = true)
    (hscr : env.scrape = some raw)
    (hparse : parse_vendor_data (some raw) vstr = .ok (some parsed))
    (hmatch : (validate_batch_match cur parsed vstr).1 = true)
    (hnf : ¬(parsed.price = .vs "Not Found")) :
    processItem env aci = commitPhase env aci cur row raw parsed := by
  simp only [processItem, hl, hv, hauto, hscr, hparse, hopen, hmatch, Bool.not_true,
    Bool.false_eq_true, if_false]
  rw [if_neg hhyph, if_neg hnf]

/-- C2: for a validated batch item, an unobtainable or out-of-range percent
change is recorded as skipped and nothing is written; otherwise exactly one
write carries the new price, the ledger is appended exactly when the absolute
change is at least 1 (provided the history cell holds text — a numeric cell
raises instead, see the counterexample), the last-updated fields roll forward
with the append, and a successful save is recorded in the updated bucket with
the `old → new (±pct%)` string. -/
theorem spec_C2 (env : ItemEnv) (aci vstr : String) (cur : PartRecord) (row : Nat)
    (raw : RawData) (parsed : Parsed) (v : Frac)
    (hl : env.lookup = .found cur row)
    (hv : cur.vendor = some (.vs vstr))
    (hauto : is_vendor_auto (some (.vs vstr)) = .ok true)
    (hhyph : ¬(pyContains aci "-" = true ∧
      (pyLower (pyStrip vstr) = "mcmaster" ∨ pyLower (pyStrip vstr) = "mcmaster-carr")))
    (hopen : env.openOk = true)
    (hscr : env.scrape = some raw)
    (hparse : parse_vendor_data (some raw) vstr = .ok (some parsed))
    (hmatch : (validate_batch_match cur parsed vstr).1 = true)
    (hnf : ¬(parsed.price = .vs "Not Found")) :
    (pcOutOfRange (calculate_percentage_change cur.unitPrice (some parsed.price)) = true →
       (processItem env aci).1
           = .skipped aci (pcReason (calculate_percentage_change cur.unitPrice (some parsed.price))) ∧
       (processItem env aci).2.2 = []) ∧
    (calculate_percentage_change cur.unitPrice (some parsed.price) = some (.val v) →
     (Frac.ofInt 15).ltF v.absF = false →
     (∃ hs, cur.history.getD (.vs "") = .vs hs) →
     ∃ entry,
       (processItem env aci).2.2 = [(row, entry)] ∧
       entry.unitPrice = some parsed.price ∧
       entry.changePct = some (.vf v) ∧
       ((Frac.ofInt 1).leF v.absF = true →
          entry.history = some (.vs (ledgerAfter cur)) ∧
          entry.lastPrice = cur.unitPrice ∧ entry.lastDate = cur.date) ∧
       ((Frac.ofInt 1).leF v.absF = false →
          entry.history = cur.history ∧ entry.lastPrice = cur.lastPrice ∧
          entry.lastDate = cur.lastDate) ∧
       (env.saveOk = true →
          (processItem env aci).1 = .updated aci
            (pyShowOpt cur.unitPrice ++ " → " ++ pyShow parsed.price
              ++ " (" ++ fmtPlus1 v ++ "%)")) ∧
       (env.saveOk = false → (processItem env aci).1 = .err aci "Failed to save")) := by
  have hred := processItem_validated env aci vstr cur row raw parsed
    hl hv hauto hhyph hopen hscr hparse hmatch hnf
  rw [hred]
  exact ⟨commitPhase_skip env aci cur row raw parsed,
    fun hcalc hlt hhs => commitPhase_commit env aci cur row raw parsed v hcalc hlt hhs⟩

theorem spec_C2_cex :
    cexHistEnv.lookup = .found cexHistCur 4 ∧
    is_vendor_auto cexHistCur.vendor = .ok true ∧
    parse_vendor_data (some cexHistRaw) "grainger"
        = .ok (some ⟨.vs "Not Found", .vs "110.00", .vs "Not Found", 1,
                     .vs "Not Found", .vs "Not Found"⟩) ∧
    (validate_batch_match cexHistCur
        ⟨.vs "Not Found", .vs "110.00", .vs "Not Found", 1, .vs "Not Found", .vs "Not Found"⟩
        "grainger").1 = true ∧
    calculate_percentage_change cexHistCur.unitPrice (some (.vs "110.00"))
        = some (.val ⟨10, 1⟩) ∧
    pcOutOfRange (some (.val ⟨10, 1⟩)) = false ∧
    processItem cexHistEnv "777" = (.err "777" "TypeError", [], []) := by
  decide

theorem spec_C2_witness :
    (processItem witEnv "778").1 = .updated "778" "100 → 110.00 (+10.0%)" ∧
    ∃ entry, (processItem witEnv "778").2.2 = [(4, entry)] ∧
      entry.history
        = some (.vs "Date: 12/01/2023 Price: 90, Date: 01/02/2024 Price: 100") := by
  have h := spec_C2 witEnv "778" "grainger" witCur 4 cexHistRaw
      ⟨.vs "Not Found", .vs "110.00", .vs "Not Found", 1, .vs "Not Found", .vs "Not Found"⟩
      ⟨10, 1⟩ rfl rfl (by decide) (by decide) rfl rfl (by decide) (by decide) (by decide)
  obtain ⟨entry, h1, h2, h3, h4, h5, h6, h7⟩ :=
    h.2 (by decide) (by decide) ⟨"Date: 12/01/2023 Price: 90", rfl⟩
  refine ⟨?_, entry, h1, ?_⟩
  · exact h6 rfl
  · exact (h4 (by decide)).1

theorem spec_C6_witness :
    update_price_history blankRec witCur =
      .ok { blankRec with
            history := some (.vs "Date: 12/01/2023 Price: 90, Date: 01/02/2024 Price: 100"),
            lastPrice := some (.vs "100"),
            lastDate := some (.vs "01/02/2024") } :=
  (spec_C6 blankRec witCur).2.1 "Date: 12/01/2023 Price: 90" (by decide) rfl

theorem spec_C10_witness :
    validate_batch_match blankRec
        ⟨.vs "d", .vs "9.50", .vs "each", 1, .vs "X1", .vs "b"⟩ "grainger"
      = (true, "Match") :=
  spec_C10.1 blankRec ⟨.vs "d", .vs "9.50", .vs "each", 1, .vs "X1", .vs "b"⟩ "grainger"
    (Or.inl rfl) (Or.inl rfl)
